import Mathlib

/-!
Shallow embedding of the sync-player synchronization hub
(`src/services/websocket.service.ts`, `src/services/state.service.ts`,
queue-aware state service variant). JS numbers are modelled as exact
rationals (`ℚ`), wall-clock instants as milliseconds (`ℚ`), JS `Map`s as
association lists in insertion order, and the socket.io side effects of a
handler as an explicit list of `Effect`s.
-/

namespace SyncPlayer

/-- JS falsy-coalescing `a || d` for an optional string: `undefined` and the
empty string both fall through to the default (`crypto.utils.ts` callers use
this pattern, e.g. `payload.name || payload.given_name || ...`). -/
def jsOr (a : Option String) (d : String) : String :=
  match a with
  | none => d
  | some s => if s = "" then d else s

/-- Local part of an email, modelling JS `email.split('@')[0]`. -/
def emailLocal (email : String) : String :=
  (email.splitOn "@").headD ""

/-- Models `hashGoogleId` (`src/utils/crypto.utils.ts`): a deterministic
one-way hash (SHA-256 hex) of the external subject. The digest is abstracted
as the tagged string `"h_" ++ googleId`; like the real 64-character hex
digest, a tagged value can never coincide with the `"temp_"`-prefixed
connection-scoped identifiers, which is the only structural property of the
digest the service relies on. -/
def hashGoogleId (googleId : String) : String :=
  "h_" ++ googleId

/-- Models `cacheProfileImage` (success path): the cached public URL for a
profile picture, `/uploads/profile-<userId>.jpg`. -/
def cacheProfileImage (_url userId : String) : String :=
  "/uploads/profile-" ++ userId ++ ".jpg"

/-- `VideoState` from `state.service.ts`: `{url, time, paused, timestamp}`.
`time` is in seconds, `timestamp` a wall-clock instant in milliseconds. -/
structure VideoState where
  url : String
  time : ℚ
  paused : Bool
  timestamp : ℚ
deriving DecidableEq

/-- `QueueItem` from the queue-aware state service. -/
structure QueueItem where
  id : String
  videoId : String
  url : String
  title : String
  thumbnail : String
  author : String
  duration : String
  addedBy : String
  addedAt : ℚ
deriving DecidableEq

/-- `ServerState` from the queue-aware state service: the persisted
`RoomState` aggregate. -/
structure ServerState where
  areUserControlsAllowed : Bool
  isProxyEnabled : Bool
  currentVideoState : VideoState
  videoQueue : List QueueItem
  currentQueueIndex : Int
deriving DecidableEq

/-- `defaultState` from the state service (its `timestamp` is the
module-load instant, passed explicitly). -/
def defaultState (now : ℚ) : ServerState :=
  { areUserControlsAllowed := false
    isProxyEnabled := true
    currentVideoState := { url := "", time := 0, paused := true, timestamp := now }
    videoQueue := []
    currentQueueIndex := -1 }

/-- The `Client` record kept per live connection
(`websocket.service.ts`); the transport socket handle itself is addressed
through the association-list key (the socket id). -/
structure Client where
  nick : String
  isAdmin : Bool
  isMuted : Bool
  userId : String
  googleId : Option String
  picture : Option String
  isAuthenticated : Bool
  isReady : Bool
deriving DecidableEq

/-- `StoredChatMessage` (`websocket.service.ts`); the constant `type:
'chat'` discriminator is left implicit. -/
structure StoredChatMessage where
  nick : String
  text : String
  isAdmin : Bool
  isSystem : Bool
  timestamp : ℚ
  picture : Option String
  image : Option String
deriving DecidableEq

/-- One row of a `user-list` payload. -/
structure UserEntry where
  id : String
  nick : String
  isAdmin : Bool
  isMuted : Bool
  isReady : Bool
  picture : Option String
deriving DecidableEq

/-- The verified Google token payload fields the service reads. -/
structure GooglePayload where
  sub : String
  name : Option String
  given_name : Option String
  email : Option String
  picture : Option String
deriving DecidableEq

/-- A video descriptor as sent by clients in `queue-add` /
`queue-play-next` / `queue-play-now` messages. -/
structure VideoInfo where
  videoId : String
  url : String
  title : String
  thumbnail : String
  author : String
  duration : String
deriving DecidableEq

/-- Inbound control-channel messages (`handleMessage`'s closed `type` set).
`authGoogle none` models a token-verification failure (the `catch` branch);
`authGoogle (some none)` a verified ticket with an absent payload;
`authGoogle (some (some p))` a verified payload `p`. -/
inductive InMsg where
  | authGoogle (verified : Option (Option GooglePayload))
  | authDev (email : String)
  | chat (text : String) (image : Option String)
  | toggleUserControls (value : Bool)
  | toggleProxy (value : Bool)
  | getUsers
  | muteUser (targetId : String)
  | kickUser (targetId : String)
  | sync (url : Option String) (time : ℚ) (paused : Bool)
  | forceSync (url : Option String) (time : ℚ) (paused : Bool)
  | timeUpdateMsg (time : ℚ) (paused : Bool)
  | ready (value : Bool)
  | load (url : String)
  | queueAdd (video : VideoInfo)
  | queuePlayNext (video : VideoInfo)
  | queuePlayNow (video : VideoInfo)
  | queueRemove (itemId : String)
  | queueReorder (fromIndex toIndex : Int)
  | queueGet
  | videoEnded
  | ping (startTime : ℚ)
deriving DecidableEq

/-- Outbound control-channel messages. `chatLite` models the raw
`{type:'chat', nick, text, isSystem}` objects emitted for join / leave
notices (which carry no timestamp or admin flag); `echo` models
re-broadcasting the raw inbound message (`sync` / `forceSync`). -/
inductive OutMsg where
  | welcome (userId : String)
  | systemState (userControlsAllowed proxyEnabled : Bool)
  | chatHistoryMsg (messages : List StoredChatMessage)
  | userList (users : List UserEntry)
  | chatMsg (m : StoredChatMessage)
  | chatLite (nick text : String) (isSystem : Bool)
  | forceSyncMsg (url : String) (time : ℚ) (paused : Bool)
  | echo (m : InMsg)
  | loadMsg (url : String)
  | queueState (queue : List QueueItem) (currentIndex : Int)
  | authSuccess (nick : String) (picture : Option String) (email : Option String)
      (userId : String)
  | adminSuccess
  | errorMsg (text : String)
  | sessionReplaced (text : String)
  | kick
  | pong (startTime : ℚ)
deriving DecidableEq

/-- Side effects of one handler invocation, in program order:
`persist` is a `persistState()` call, `emitTo` a `socket.emit` to one
connection, `broadcastFrom` a `socket.broadcast.emit` (all except the given
connection), `emitAll` an `io.emit`, and `disconnectSock` a forced
`socket.disconnect(true)`. -/
inductive Effect where
  | persist
  | emitTo (sid : String) (m : OutMsg)
  | broadcastFrom (sid : String) (m : OutMsg)
  | emitAll (m : OutMsg)
  | disconnectSock (sid : String)
deriving DecidableEq

/-- The hub's mutable state: the connection registry (`clients` map, in
insertion order), the bounded chat history, and the shared `serverState`. -/
structure HubState where
  clients : List (String × Client)
  chatHistory : List StoredChatMessage
  serverState : ServerState
deriving DecidableEq

/-- `Map.get`: first (unique) binding of a key. -/
def mapGet (m : List (String × Client)) (k : String) : Option Client :=
  (m.find? (fun kc => kc.1 == k)).map (fun kc => kc.2)

/-- `Map.set`: replace the binding in place if the key is present,
otherwise append a new binding. -/
def mapSet (m : List (String × Client)) (k : String) (v : Client) :
    List (String × Client) :=
  if m.any (fun kc => kc.1 == k) then
    m.map (fun kc => if kc.1 == k then (k, v) else kc)
  else
    m ++ [(k, v)]

/-- `Map.delete`: drop the binding of a key (keys are unique, so dropping
every match equals dropping the single entry). -/
def mapDelete (m : List (String × Client)) (k : String) : List (String × Client) :=
  m.filter (fun kc => kc.1 != k)

/-- Replace the client record bound to `k` (in-place object mutation of a
map value in the source). -/
def mapUpdate (m : List (String × Client)) (k : String) (v : Client) :
    List (String × Client) :=
  m.map (fun kc => if kc.1 == k then (k, v) else kc)

/-- `MAX_HISTORY` (`websocket.service.ts`). -/
def MAX_HISTORY : Nat := 50

/-- One chat-history append: `push` to the tail then, if the length exceeds
`MAX_HISTORY`, `shift()` the oldest entry off the head. -/
def pushChat (h : List StoredChatMessage) (m : StoredChatMessage) :
    List StoredChatMessage :=
  let h2 := h ++ [m]
  if MAX_HISTORY < h2.length then h2.tail else h2

/-- The join-time position estimate (`setupSocketIO` and both auth paths):
start from the stored `time` and, when not paused, add the elapsed seconds
since the stored wall-clock `timestamp`. -/
def estimatedTime (vs : VideoState) (now : ℚ) : ℚ :=
  if !vs.paused then vs.time + (now - vs.timestamp) / 1000 else vs.time

/-- The `user-list` payload derived from the registry. -/
def userListOf (cs : List (String × Client)) : List UserEntry :=
  cs.map (fun kc =>
    { id := kc.2.userId, nick := kc.2.nick, isAdmin := kc.2.isAdmin,
      isMuted := kc.2.isMuted, isReady := kc.2.isReady, picture := kc.2.picture })

/-- The deduplication scan in both auth paths: the first live record other
than the authenticating connection that already holds the new stable id. -/
def findOtherHolder (cs : List (String × Client)) (sid h : String) :
    Option (String × Client) :=
  cs.find? (fun kc => kc.2.userId == h && kc.1 != sid)

/-- Truthiness of `process.env.ADMIN_EMAIL` combined with
`email === adminEmail`. -/
def adminEmailMatch (adminEmail : Option String) (email : Option String) : Bool :=
  match adminEmail with
  | none => false
  | some a => if a = "" then false else email == some a

/-- The `forceSync` emitted to a (re)joining connection when a media URL is
loaded, shared verbatim by the connect handler and both auth paths. -/
def joinForceSync (ss : ServerState) (sid : String) (now : ℚ) : List Effect :=
  if ss.currentVideoState.url = "" then []
  else [Effect.emitTo sid (OutMsg.forceSyncMsg ss.currentVideoState.url
          (estimatedTime ss.currentVideoState now) ss.currentVideoState.paused)]

/-- `queue-reorder` splice pair: remove the element at `f`, then insert it
at `t` of the shortened list (`videoQueue.splice(fromIndex, 1)` followed by
`videoQueue.splice(toIndex, 0, item)`). -/
def listMove (l : List QueueItem) (f t : Nat) : List QueueItem :=
  match l[f]? with
  | none => l
  | some x => (l.eraseIdx f).insertIdx t x

/-- `queue-reorder` adjustment of `currentQueueIndex` so it keeps
designating the same logical item across the move. -/
def reorderIndex (idx f t : Int) : Int :=
  if idx = f then t
  else if f < idx ∧ t ≥ idx then idx - 1
  else if f > idx ∧ t ≤ idx then idx + 1
  else idx

/-- Toggle the mute flag of the first registry entry whose `userId` matches
the target (the `mute-user` loop with its `break`); `none` when no entry
matches, in which case the handler does not broadcast. -/
def toggleMuteFirst (cs : List (String × Client)) (target : String) :
    Option (List (String × Client)) :=
  match cs with
  | [] => none
  | kc :: rest =>
      if kc.2.userId == target then
        some ((kc.1, { kc.2 with isMuted := !kc.2.isMuted }) :: rest)
      else
        (toggleMuteFirst rest target).map (fun cs2 => kc :: cs2)

/-- A freshly authenticated (Google) client record: stable hashed id,
verified display name chain, cached picture, and the admin flag forced on
when the verified email matches the configured admin email. -/
def googleAuthedClient (sender : Client) (p : GooglePayload)
    (adminEmail : Option String) : Client :=
  { sender with
    userId := hashGoogleId p.sub
    googleId := some p.sub
    isAuthenticated := true
    nick := jsOr p.name (jsOr p.given_name (jsOr (p.email.map emailLocal) "Google User"))
    picture := p.picture.map (fun u => cacheProfileImage u p.sub)
    isAdmin := if adminEmailMatch adminEmail p.email then true else sender.isAdmin }

/-- The state/effect pair of the deduplication block shared by both auth
paths: when another live record holds the new stable id, notify it that its
session was replaced, force-disconnect it, and delete it from the registry. -/
def dedupStep (cs : List (String × Client)) (sid h text : String) :
    List (String × Client) × List Effect :=
  match findOtherHolder cs sid h with
  | some kc =>
      (mapDelete cs kc.1,
       [Effect.emitTo kc.1 (OutMsg.sessionReplaced text), Effect.disconnectSock kc.1])
  | none => (cs, [])

/-- `handleMessage` (`websocket.service.ts`): dispatch one inbound control
message for the connection `sid`, returning the new hub state and the side
effects in program order. `now` stands for `Date.now()` during this
invocation and `freshId` for the random queue-item id generated by
`Date.now() + Math.random()`. -/
def handleMessage (adminEmail : Option String) (st : HubState) (sid : String)
    (msg : InMsg) (now : ℚ) (freshId : String) : HubState × List Effect :=
  match mapGet st.clients sid with
  | none => (st, [])
  | some sender =>
    match msg with
    | InMsg.authGoogle verified =>
        match verified with
        | none => (st, [Effect.emitTo sid (OutMsg.errorMsg "Authentication failed")])
        | some none => (st, [])
        | some (some p) =>
            let h := hashGoogleId p.sub
            let ded := dedupStep st.clients sid h
              "You have been logged in from another device/tab"
            let sender2 := googleAuthedClient sender p adminEmail
            let cs2 := mapUpdate ded.1 sid sender2
            ({ st with clients := cs2 },
             ded.2
               ++ (if adminEmailMatch adminEmail p.email then
                     [Effect.emitTo sid OutMsg.adminSuccess] else [])
               ++ [Effect.emitAll (OutMsg.userList (userListOf cs2)),
                   Effect.emitTo sid (OutMsg.authSuccess sender2.nick sender2.picture
                     p.email sender2.userId),
                   Effect.emitTo sid (OutMsg.systemState
                     st.serverState.areUserControlsAllowed st.serverState.isProxyEnabled),
                   Effect.broadcastFrom sid (OutMsg.chatLite "System"
                     (sender2.nick ++ " logged in with Google") true)]
               ++ joinForceSync st.serverState sid now)
    | InMsg.authDev email =>
        if adminEmailMatch adminEmail (some email) then
          let h := hashGoogleId email
          let ded := dedupStep st.clients sid h "Dev session replaced"
          let sender2 : Client :=
            { sender with
              userId := h, googleId := some email, isAuthenticated := true,
              nick := "Dev Admin", isAdmin := true, picture := none }
          let cs2 := mapUpdate ded.1 sid sender2
          ({ st with clients := cs2 },
           ded.2
             ++ [Effect.emitAll (OutMsg.userList (userListOf cs2)),
                 Effect.emitTo sid (OutMsg.authSuccess "Dev Admin" none (some email) h),
                 Effect.emitTo sid OutMsg.adminSuccess,
                 Effect.emitTo sid (OutMsg.systemState
                   st.serverState.areUserControlsAllowed st.serverState.isProxyEnabled),
                 Effect.broadcastFrom sid (OutMsg.chatLite "System"
                   "Dev Admin logged in via Dev Auth" true)]
             ++ joinForceSync st.serverState sid now)
        else
          (st, [Effect.emitTo sid (OutMsg.errorMsg "Dev Authentication failed")])
    | InMsg.chat text image =>
        let chatMsg : StoredChatMessage :=
          { nick := sender.nick, text := text, isAdmin := sender.isAdmin,
            isSystem := false, timestamp := now, picture := sender.picture,
            image := image }
        ({ st with chatHistory := pushChat st.chatHistory chatMsg },
         [Effect.broadcastFrom sid (OutMsg.chatMsg chatMsg)])
    | InMsg.toggleUserControls v =>
        if sender.isAdmin then
          let ss2 := { st.serverState with areUserControlsAllowed := v }
          let notice : StoredChatMessage :=
            { nick := "System",
              text := if ss2.areUserControlsAllowed then "🔓 User controls enabled"
                      else "🔒 User controls disabled",
              isAdmin := false, isSystem := true, timestamp := now,
              picture := none, image := none }
          ({ st with serverState := ss2, chatHistory := pushChat st.chatHistory notice },
           [Effect.persist,
            Effect.emitAll (OutMsg.systemState ss2.areUserControlsAllowed ss2.isProxyEnabled),
            Effect.emitAll (OutMsg.chatMsg notice)])
        else (st, [])
    | InMsg.toggleProxy v =>
        if sender.isAdmin then
          let ss2 := { st.serverState with isProxyEnabled := v }
          let notice : StoredChatMessage :=
            { nick := "System",
              text := if ss2.isProxyEnabled then "📡 Proxy Mode ENABLED"
                      else "🔌 Proxy Mode DISABLED",
              isAdmin := false, isSystem := true, timestamp := now,
              picture := none, image := none }
          ({ st with serverState := ss2, chatHistory := pushChat st.chatHistory notice },
           [Effect.persist,
            Effect.emitAll (OutMsg.systemState ss2.areUserControlsAllowed ss2.isProxyEnabled),
            Effect.emitAll (OutMsg.chatMsg notice)])
        else (st, [])
    | InMsg.getUsers =>
        if sender.isAdmin then
          (st, [Effect.emitTo sid (OutMsg.userList (userListOf st.clients))])
        else (st, [])
    | InMsg.muteUser targetId =>
        if sender.isAdmin then
          match toggleMuteFirst st.clients targetId with
          | some cs2 =>
              ({ st with clients := cs2 },
               [Effect.emitAll (OutMsg.userList (userListOf cs2))])
          | none => (st, [])
        else (st, [])
    | InMsg.kickUser targetId =>
        if sender.isAdmin then
          match st.clients.find? (fun kc => kc.2.userId == targetId) with
          | some kc =>
              (st, [Effect.emitTo kc.1 OutMsg.kick, Effect.disconnectSock kc.1])
          | none => (st, [])
        else (st, [])
    | InMsg.sync u time paused =>
        if sender.isAdmin || st.serverState.areUserControlsAllowed then
          let ss2 := { st.serverState with currentVideoState :=
            { url := jsOr u st.serverState.currentVideoState.url,
              time := time, paused := paused, timestamp := now } }
          ({ st with serverState := ss2 },
           [Effect.persist, Effect.broadcastFrom sid (OutMsg.echo msg)])
        else (st, [])
    | InMsg.forceSync u time paused =>
        if sender.isAdmin || st.serverState.areUserControlsAllowed then
          let ss2 := { st.serverState with currentVideoState :=
            { url := jsOr u st.serverState.currentVideoState.url,
              time := time, paused := paused, timestamp := now } }
          ({ st with serverState := ss2 },
           [Effect.persist, Effect.broadcastFrom sid (OutMsg.echo msg)])
        else (st, [])
    | InMsg.timeUpdateMsg time paused =>
        if sender.isAdmin || st.serverState.areUserControlsAllowed then
          ({ st with serverState := { st.serverState with currentVideoState :=
              { url := st.serverState.currentVideoState.url,
                time := time, paused := paused, timestamp := now } } },
           [])
        else (st, [])
    | InMsg.ready v =>
        let cs2 := mapUpdate st.clients sid { sender with isReady := v }
        ({ st with clients := cs2 },
         [Effect.emitAll (OutMsg.userList (userListOf cs2))])
    | InMsg.load url =>
        if sender.isAdmin then
          let cs2 := st.clients.map (fun kc => (kc.1, { kc.2 with isReady := false }))
          let ss2 := { st.serverState with currentVideoState :=
            { url := url, time := 0, paused := true, timestamp := now } }
          ({ st with clients := cs2, serverState := ss2 },
           [Effect.emitAll (OutMsg.userList (userListOf cs2)),
            Effect.persist, Effect.emitAll (OutMsg.loadMsg url)])
        else (st, [])
    | InMsg.queueAdd video =>
        let item : QueueItem :=
          { id := freshId, videoId := video.videoId, url := video.url,
            title := video.title, thumbnail := video.thumbnail,
            author := video.author, duration := video.duration,
            addedBy := sender.userId, addedAt := now }
        let ss2 := { st.serverState with videoQueue := st.serverState.videoQueue ++ [item] }
        ({ st with serverState := ss2 },
         [Effect.persist,
          Effect.emitAll (OutMsg.queueState ss2.videoQueue ss2.currentQueueIndex)])
    | InMsg.queuePlayNext video =>
        if sender.isAdmin then
          let item : QueueItem :=
            { id := freshId, videoId := video.videoId, url := video.url,
              title := video.title, thumbnail := video.thumbnail,
              author := video.author, duration := video.duration,
              addedBy := sender.userId, addedAt := now }
          let ss2 := { st.serverState with
            videoQueue := item :: st.serverState.videoQueue,
            currentQueueIndex :=
              if st.serverState.currentQueueIndex ≥ 0 then
                st.serverState.currentQueueIndex + 1
              else st.serverState.currentQueueIndex }
          ({ st with serverState := ss2 },
           [Effect.persist,
            Effect.emitAll (OutMsg.queueState ss2.videoQueue ss2.currentQueueIndex)])
        else (st, [])
    | InMsg.queuePlayNow video =>
        if sender.isAdmin then
          let ss2 := { st.serverState with
            currentQueueIndex := -1,
            currentVideoState :=
              { url := video.url, time := 0, paused := false, timestamp := now } }
          ({ st with serverState := ss2 },
           [Effect.persist, Effect.emitAll (OutMsg.loadMsg video.url)])
        else (st, [])
    | InMsg.queueRemove itemId =>
        if sender.isAdmin then
          match st.serverState.videoQueue.findIdx? (fun item => item.id == itemId) with
          | some i =>
              let ss2 := { st.serverState with
                videoQueue := st.serverState.videoQueue.eraseIdx i,
                currentQueueIndex :=
                  if st.serverState.currentQueueIndex > (i : Int) then
                    st.serverState.currentQueueIndex - 1
                  else if st.serverState.currentQueueIndex = (i : Int) then -1
                  else st.serverState.currentQueueIndex }
              ({ st with serverState := ss2 },
               [Effect.persist,
                Effect.emitAll (OutMsg.queueState ss2.videoQueue ss2.currentQueueIndex)])
          | none => (st, [])
        else (st, [])
    | InMsg.queueReorder f t =>
        if sender.isAdmin then
          if 0 ≤ f ∧ f < (st.serverState.videoQueue.length : Int) ∧
             0 ≤ t ∧ t < (st.serverState.videoQueue.length : Int) then
            let ss2 := { st.serverState with
              videoQueue := listMove st.serverState.videoQueue f.toNat t.toNat,
              currentQueueIndex := reorderIndex st.serverState.currentQueueIndex f t }
            ({ st with serverState := ss2 },
             [Effect.persist,
              Effect.emitAll (OutMsg.queueState ss2.videoQueue ss2.currentQueueIndex)])
          else (st, [])
        else (st, [])
    | InMsg.queueGet =>
        (st, [Effect.emitTo sid (OutMsg.queueState st.serverState.videoQueue
                st.serverState.currentQueueIndex)])
    | InMsg.videoEnded =>
        match st.serverState.videoQueue with
        | [] => (st, [])
        | _ :: rest =>
            match rest with
            | next :: _ =>
                let ss2 := { st.serverState with
                  videoQueue := rest, currentQueueIndex := 0,
                  currentVideoState :=
                    { url := next.url, time := 0, paused := false, timestamp := now } }
                ({ st with serverState := ss2 },
                 [Effect.persist, Effect.emitAll (OutMsg.loadMsg next.url),
                  Effect.emitAll (OutMsg.queueState ss2.videoQueue ss2.currentQueueIndex)])
            | [] =>
                let ss2 := { st.serverState with
                  videoQueue := [], currentQueueIndex := -1 }
                ({ st with serverState := ss2 },
                 [Effect.persist,
                  Effect.emitAll (OutMsg.queueState ss2.videoQueue ss2.currentQueueIndex)])
    | InMsg.ping startTime =>
        (st, [Effect.emitTo sid (OutMsg.pong startTime)])

/-- The socket.io `connection` handler: install a placeholder record under a
connection-scoped `temp_` identifier and send the welcome, system-state,
chat-history replay, join-time `forceSync`, and queue snapshot. -/
def connectStep (st : HubState) (sid : String) (now : ℚ) : HubState × List Effect :=
  let tempUserId := "temp_" ++ sid
  let client : Client :=
    { nick := "Authenticating...", isAdmin := false, isMuted := false,
      userId := tempUserId, googleId := none, picture := none,
      isAuthenticated := false, isReady := false }
  let cs2 := mapSet st.clients sid client
  ({ st with clients := cs2 },
   [Effect.emitTo sid (OutMsg.welcome tempUserId),
    Effect.emitTo sid (OutMsg.systemState st.serverState.areUserControlsAllowed
      st.serverState.isProxyEnabled)]
     ++ (if st.chatHistory.length > 0 then
           [Effect.emitTo sid (OutMsg.chatHistoryMsg st.chatHistory)] else [])
     ++ joinForceSync st.serverState sid now
     ++ [Effect.emitTo sid (OutMsg.queueState st.serverState.videoQueue
           st.serverState.currentQueueIndex)])

/-- The `disconnect` handler: remove the leaver, rebroadcast the roster, and
emit (without storing) the transient "left" notice. -/
def disconnectStep (st : HubState) (sid : String) : HubState × List Effect :=
  match mapGet st.clients sid with
  | none => (st, [])
  | some leaver =>
      let cs2 := mapDelete st.clients sid
      ({ st with clients := cs2 },
       [Effect.emitAll (OutMsg.userList (userListOf cs2)),
        Effect.emitAll (OutMsg.chatLite "System" (leaver.nick ++ " left") true)])

/-- The binary `voice` handler: the socket ids a frame from `sid` is relayed
to. Frames from unknown or muted senders are dropped at the source;
otherwise the frame goes to every other live connection
(`socket.broadcast.emit`). -/
def voiceRecipients (st : HubState) (sid : String) : List String :=
  match mapGet st.clients sid with
  | none => []
  | some sender =>
      if sender.isMuted then []
      else (st.clients.map (fun kc => kc.1)).filter (fun k => k != sid)

/-- One externally triggered event of the hub. -/
inductive Event where
  | connect (sid : String) (now : ℚ)
  | message (sid : String) (msg : InMsg) (now : ℚ) (freshId : String)
  | voice (sid : String)
  | disconnect (sid : String)

/-- The hub's state transition for one event (run-to-completion dispatch). -/
def stepEvent (adminEmail : Option String) (st : HubState) : Event → HubState
  | Event.connect sid now => (connectStep st sid now).1
  | Event.message sid msg now freshId => (handleMessage adminEmail st sid msg now freshId).1
  | Event.voice _ => st
  | Event.disconnect sid => (disconnectStep st sid).1

/-- Hub states reachable from a fresh process (empty registry and chat
history, the boot-time `serverState`) by any sequence of events. -/
inductive Reachable (adminEmail : Option String) (s0 : ServerState) : HubState → Prop
  | init : Reachable adminEmail s0 { clients := [], chatHistory := [], serverState := s0 }
  | next {st : HubState} (e : Event) :
      Reachable adminEmail s0 st → Reachable adminEmail s0 (stepEvent adminEmail st e)

/-- The shape of the single JSON document written by `persistState`
(`JSON.stringify(serverState)`): one field per persisted `ServerState`
field. -/
structure PersistedDoc where
  areUserControlsAllowed : Bool
  isProxyEnabled : Bool
  currentVideoState : VideoState
  videoQueue : List QueueItem
  currentQueueIndex : Int
deriving DecidableEq

/-- `persistState`'s serialization of the in-memory state. -/
def serializeState (s : ServerState) : PersistedDoc :=
  { areUserControlsAllowed := s.areUserControlsAllowed
    isProxyEnabled := s.isProxyEnabled
    currentVideoState := s.currentVideoState
    videoQueue := s.videoQueue
    currentQueueIndex := s.currentQueueIndex }

/-- The boot-time load (`{ ...defaultState, ...JSON.parse(raw) }` in the
queue-aware state service): every persisted field overrides its default. -/
def mergeWithDefault (doc : PersistedDoc) : ServerState :=
  { areUserControlsAllowed := doc.areUserControlsAllowed
    isProxyEnabled := doc.isProxyEnabled
    currentVideoState := doc.currentVideoState
    videoQueue := doc.videoQueue
    currentQueueIndex := doc.currentQueueIndex }

/-- Boot-time normalization of the loaded state (queue-aware state service):
if the snapshot was playing, advance `time` by the downtime elapsed since
its `timestamp`; then always force `paused := true` and reset `timestamp`
to the boot instant. -/
def loadNormalize (s : ServerState) (bootNow : ℚ) : ServerState :=
  let s1 :=
    if !s.currentVideoState.paused then
      { s with currentVideoState := { s.currentVideoState with
          time := s.currentVideoState.time +
            (bootNow - s.currentVideoState.timestamp) / 1000 } }
    else s
  { s1 with currentVideoState := { s1.currentVideoState with
      paused := true, timestamp := bootNow } }

/-- Deserialization at process start: parse (field-for-field), merge over
the defaults, then apply the boot normalization. -/
def deserializeState (doc : PersistedDoc) (bootNow : ℚ) : ServerState :=
  loadNormalize (mergeWithDefault doc) bootNow

/-- The connection keys of the registry are pairwise distinct (the `Map`
representation invariant). -/
def KeysNodup (cs : List (String × Client)) : Prop :=
  (cs.map (fun kc => kc.1)).Nodup

/-- At most one live connection holds any given stable identifier. -/
def AtMostOnePerId (cs : List (String × Client)) : Prop :=
  ∀ g, cs.countP (fun kc => kc.2.userId == hashGoogleId g) ≤ 1

/-- The registry's structural invariant: distinct connection keys, and at
most one live connection per stable identifier. -/
def HubInv (st : HubState) : Prop :=
  KeysNodup st.clients ∧ AtMostOnePerId st.clients

/-- An unauthenticated guest participant fixture. -/
def guestClient : Client :=
  { nick := "Guest", isAdmin := false, isMuted := false, userId := "temp_s1",
    googleId := none, picture := none, isAuthenticated := false, isReady := false }

/-- An authenticated admin participant fixture. -/
def adminClient : Client :=
  { nick := "Adm", isAdmin := true, isMuted := false, userId := "h_adm",
    googleId := some "adm", picture := none, isAuthenticated := true, isReady := false }

/-- Hub fixture for the FIFO auto-advance scenario: one guest connection,
queue `[A, B, C]`, `currentQueueIndex = 0`. -/
def fifoState (A B C : QueueItem) : HubState :=
  { clients := [("s1", guestClient)], chatHistory := [],
    serverState := { defaultState 0 with
      videoQueue := [A, B, C], currentQueueIndex := 0 } }

/-- Hub fixture for the reorder scenario: one admin connection, queue
`[A, B, C]`, `currentQueueIndex = 1` (B active). -/
def reorderState (A B C : QueueItem) : HubState :=
  { clients := [("s1", adminClient)], chatHistory := [],
    serverState := { defaultState 0 with
      videoQueue := [A, B, C], currentQueueIndex := 1 } }

/-- Hub fixture with an unmuted sender `sA` and a muted participant `sB`. -/
def voiceState : HubState :=
  { clients :=
      [("sA", { guestClient with userId := "temp_sA" }),
       ("sB", { guestClient with userId := "temp_sB", isMuted := true })],
    chatHistory := [], serverState := defaultState 0 }

/-- The fresh-boot hub state: empty registry and history. -/
def bootState : HubState :=
  { clients := [], chatHistory := [], serverState := defaultState 0 }

/-- Hub fixture with a single admin connection and a zeroed video state. -/
def oneAdminState : HubState :=
  { clients := [("s1", adminClient)], chatHistory := [],
    serverState := defaultState 0 }

/-- Hub fixture with a single guest connection and empty chat history. -/
def oneGuestState : HubState :=
  { clients := [("s1", guestClient)], chatHistory := [],
    serverState := defaultState 0 }

/-- A persisted snapshot that was playing (`paused = false`): position 10 s,
recorded at wall-clock 1000 ms. -/
def roundtripState : ServerState :=
  { areUserControlsAllowed := false, isProxyEnabled := true,
    currentVideoState := { url := "u", time := 10, paused := false, timestamp := 1000 },
    videoQueue := [], currentQueueIndex := -1 }

/-- A chat message fixture indexed by its position, used to exercise the
history bound. -/
def chatFixture (i : Nat) : StoredChatMessage :=
  { nick := toString i, text := "m", isAdmin := false, isSystem := false,
    timestamp := 0, picture := none, image := none }

/-- A queue item fixture with a given id. -/
def queueItemFixture (n : String) : QueueItem :=
  { id := n, videoId := n, url := "url_" ++ n, title := n, thumbnail := n,
    author := n, addedBy := "u", duration := "1:00", addedAt := 0 }

/-- A participant already authenticated under the stable id of the subject
`alice`. -/
def aliceClient : Client :=
  { nick := "Alice", isAdmin := false, isMuted := false,
    userId := hashGoogleId "alice", googleId := some "alice", picture := none,
    isAuthenticated := true, isReady := false }

/-- Hub fixture: an unauthenticated guest on `s1` and Alice's existing live
session on `s2`. -/
def dualState : HubState :=
  { clients := [("s1", guestClient), ("s2", aliceClient)],
    chatHistory := [], serverState := defaultState 0 }

/-- A participant already authenticated under the stable id derived from
the operator email `a@b`. -/
def devClient : Client :=
  { nick := "Dev Admin", isAdmin := true, isMuted := false,
    userId := hashGoogleId "a@b", googleId := some "a@b", picture := none,
    isAuthenticated := true, isReady := false }

/-- Hub fixture: an unauthenticated guest on `s1` and an existing dev
session on `s2`. -/
def devDualState : HubState :=
  { clients := [("s1", guestClient), ("s2", devClient)],
    chatHistory := [], serverState := defaultState 0 }

/-- The verified payload of the subject `alice`. -/
def alicePayload : GooglePayload :=
  { sub := "alice", name := some "Alice", given_name := none, email := none,
    picture := none }

/-- C2. Extrapolation correctness of the current-position estimate sent to a
joining participant: for a paused state the estimate is exactly the stored
`time`, independent of the evaluation instant; for a playing state it is the
stored `time` plus the elapsed seconds since the stored wall-clock
`timestamp`; and the connection handler sends exactly this estimate in its
join-time `forceSync` whenever a media URL is loaded. -/
theorem extrapolation_correct (vs : VideoState) (now : ℚ) (st : HubState) (sid : String) :
    (vs.paused = true → estimatedTime vs now = vs.time) ∧
    (vs.paused = false →
       estimatedTime vs now = vs.time + (now - vs.timestamp) / 1000) ∧
    (st.serverState.currentVideoState = vs → vs.url ≠ "" →
       Effect.emitTo sid (OutMsg.forceSyncMsg vs.url (estimatedTime vs now) vs.paused)
         ∈ (connectStep st sid now).2) := by
  refine ⟨fun h => by simp [estimatedTime, h], fun h => by simp [estimatedTime, h], ?_⟩
  intro hvs hurl
  simp [connectStep, joinForceSync, hvs, hurl]

/-- Closed instance of C2: stored position 10 s recorded at wall-clock
1000 ms, evaluated 5 s later, yields 15; the same state paused yields 10. -/
theorem extrapolation_correct_witness :
    estimatedTime { url := "u", time := 10, paused := false, timestamp := 1000 } 6000 =
      10 + (6000 - 1000) / 1000 ∧
    estimatedTime { url := "u", time := 10, paused := true, timestamp := 1000 } 6000 = 10 ∧
    Effect.emitTo "s2" (OutMsg.forceSyncMsg "u"
        (estimatedTime { url := "u", time := 10, paused := false, timestamp := 1000 } 6000)
        false)
      ∈ (connectStep
            { clients := [],
              chatHistory := [],
              serverState :=
                { defaultState 0 with currentVideoState :=
                    { url := "u", time := 10, paused := false, timestamp := 1000 } } }
            "s2" 6000).2 := by
  refine ⟨(extrapolation_correct _ 6000 oneGuestState "s2").2.1 rfl,
          (extrapolation_correct _ 6000 oneGuestState "s2").1 rfl, ?_⟩
  exact (extrapolation_correct _ 6000 _ "s2").2.2 rfl (by decide)

/-- C3. Queue FIFO auto-advance: from queue `[A, B, C]` with
`currentQueueIndex = 0`, three `video-ended` events successively yield
`[B, C]` at index 0 (B loaded at position 0, playing), `[C]` at index 0
(C loaded at position 0, playing), and `[]` at index −1 with the playback
state left untouched; each non-final step broadcasts a `load` of the new
head, and every step persists. -/
theorem queue_fifo_auto_advance (A B C : QueueItem) (n1 n2 n3 : ℚ)
    (ae : Option String) (f1 f2 f3 : String) :
    let r1 := handleMessage ae (fifoState A B C) "s1" InMsg.videoEnded n1 f1
    let r2 := handleMessage ae r1.1 "s1" InMsg.videoEnded n2 f2
    let r3 := handleMessage ae r2.1 "s1" InMsg.videoEnded n3 f3
    (r1.1.serverState.videoQueue = [B, C] ∧
     r1.1.serverState.currentQueueIndex = 0 ∧
     r1.1.serverState.currentVideoState =
       { url := B.url, time := 0, paused := false, timestamp := n1 } ∧
     Effect.emitAll (OutMsg.loadMsg B.url) ∈ r1.2 ∧ Effect.persist ∈ r1.2) ∧
    (r2.1.serverState.videoQueue = [C] ∧
     r2.1.serverState.currentQueueIndex = 0 ∧
     r2.1.serverState.currentVideoState =
       { url := C.url, time := 0, paused := false, timestamp := n2 } ∧
     Effect.emitAll (OutMsg.loadMsg C.url) ∈ r2.2 ∧ Effect.persist ∈ r2.2) ∧
    (r3.1.serverState.videoQueue = [] ∧
     r3.1.serverState.currentQueueIndex = -1 ∧
     r3.1.serverState.currentVideoState = r2.1.serverState.currentVideoState ∧
     Effect.persist ∈ r3.2) := by
  exact ⟨⟨rfl, rfl, rfl, List.Mem.tail _ (List.Mem.head _), List.Mem.head _⟩,
         ⟨rfl, rfl, rfl, List.Mem.tail _ (List.Mem.head _), List.Mem.head _⟩,
         ⟨rfl, rfl, rfl, List.Mem.head _⟩⟩

/-- C5. Authorization gate: a `sync` or `forceSync` from a non-admin while
user controls are closed changes nothing — state identical, no persistence,
no broadcast, no reply of any kind; a `chat` from the very same participant
always succeeds: it is appended to the history buffer and broadcast to every
other connection. -/
theorem authorization_gate (ae : Option String) (st : HubState) (sid : String)
    (sender : Client) (u : Option String) (tm : ℚ) (p : Bool) (text : String)
    (image : Option String) (now : ℚ) (fid : String)
    (hs : mapGet st.clients sid = some sender)
    (hA : sender.isAdmin = false)
    (hC : st.serverState.areUserControlsAllowed = false) :
    handleMessage ae st sid (InMsg.sync u tm p) now fid = (st, []) ∧
    handleMessage ae st sid (InMsg.forceSync u tm p) now fid = (st, []) ∧
    handleMessage ae st sid (InMsg.chat text image) now fid =
      ({ st with
          chatHistory := pushChat st.chatHistory
            { nick := sender.nick, text := text, isAdmin := sender.isAdmin,
              isSystem := false, timestamp := now, picture := sender.picture,
              image := image } },
       [Effect.broadcastFrom sid (OutMsg.chatMsg
          { nick := sender.nick, text := text, isAdmin := sender.isAdmin,
            isSystem := false, timestamp := now, picture := sender.picture,
            image := image })]) := by
  refine ⟨?_, ?_, ?_⟩ <;> simp [handleMessage, hs, hA, hC]

/-- Closed instance of C5: the guest's `sync` is silently dropped while its
`chat` is stored and broadcast. -/
theorem authorization_gate_witness :
    handleMessage none oneGuestState "s1" (InMsg.sync (some "v") 3 true) 7 "f" =
      (oneGuestState, []) ∧
    handleMessage none oneGuestState "s1" (InMsg.chat "hi" none) 7 "f" =
      ({ oneGuestState with
          chatHistory := pushChat oneGuestState.chatHistory
            { nick := guestClient.nick, text := "hi", isAdmin := guestClient.isAdmin,
              isSystem := false, timestamp := 7, picture := guestClient.picture,
              image := none } },
       [Effect.broadcastFrom "s1" (OutMsg.chatMsg
          { nick := guestClient.nick, text := "hi", isAdmin := guestClient.isAdmin,
            isSystem := false, timestamp := 7, picture := guestClient.picture,
            image := none })]) := by
  have h := authorization_gate none oneGuestState "s1" guestClient (some "v") 3 true
    "hi" none 7 "f" (by decide) (by decide) (by decide)
  exact ⟨h.1, h.2.2⟩

theorem pushChat_of_lt (h : List StoredChatMessage) (m : StoredChatMessage)
    (hl : h.length < MAX_HISTORY) : pushChat h m = h ++ [m] := by
  unfold pushChat
  rw [if_neg]
  simp only [List.length_append, List.length_singleton]
  omega

theorem pushChat_of_eq (h : List StoredChatMessage) (m : StoredChatMessage)
    (hl : h.length = MAX_HISTORY) : pushChat h m = h.tail ++ [m] := by
  have hne : h ≠ [] := by
    intro hnil
    rw [hnil] at hl
    simp [MAX_HISTORY] at hl
  obtain ⟨hd, tl, rfl⟩ := List.exists_cons_of_ne_nil hne
  unfold pushChat
  rw [if_pos]
  · rfl
  · simp only [List.length_append, List.length_singleton]
    omega

theorem foldl_pushChat (msgs : List StoredChatMessage) :
    ∀ h : List StoredChatMessage, h.length ≤ MAX_HISTORY →
      List.foldl pushChat h msgs =
        (h ++ msgs).drop (h.length + msgs.length - MAX_HISTORY) := by
  induction msgs with
  | nil =>
      intro h hh
      simp [Nat.sub_eq_zero_of_le hh]
  | cons m ms ih =>
      intro h hh
      rw [List.foldl_cons]
      rcases lt_or_eq_of_le hh with hlt | heq
      · rw [pushChat_of_lt h m hlt, ih (h ++ [m]) (by simp; omega)]
        have harr : (h ++ [m]) ++ ms = h ++ (m :: ms) := by simp
        have hidx : (h ++ [m]).length + ms.length - MAX_HISTORY =
            h.length + (m :: ms).length - MAX_HISTORY := by
          simp
          omega
        rw [harr, hidx]
      · have hne : h ≠ [] := by
          intro hnil
          rw [hnil] at heq
          simp [MAX_HISTORY] at heq
        obtain ⟨hd, tl, rfl⟩ := List.exists_cons_of_ne_nil hne
        simp only [List.length_cons] at heq
        rw [pushChat_of_eq _ m (by simpa using heq), List.tail_cons,
            ih (tl ++ [m])
              (by simp only [List.length_append, List.length_singleton]; omega)]
        have e1 : (tl ++ [m]) ++ ms = tl ++ (m :: ms) := by simp
        have l1 : (tl ++ [m]).length + ms.length - MAX_HISTORY = ms.length := by
          simp only [List.length_append, List.length_singleton]
          omega
        have l2 : (hd :: tl).length + (m :: ms).length - MAX_HISTORY = ms.length + 1 := by
          simp only [List.length_cons]
          omega
        rw [e1, l1, l2, List.cons_append, List.drop_succ_cons]

/-- C7. Chat history bound: folding any message sequence into the empty
buffer keeps exactly the most recent `MAX_HISTORY` (= 50) entries in order
(for 60 appends, the last 50); each append pushes to the tail and, exactly
when the buffer already holds 50 entries, evicts the single oldest head
entry; and the buffer length never exceeds 50. -/
theorem chat_history_bound :
    (∀ msgs : List StoredChatMessage,
       List.foldl pushChat [] msgs = msgs.drop (msgs.length - MAX_HISTORY)) ∧
    (∀ msgs : List StoredChatMessage, msgs.length = 60 →
       List.foldl pushChat [] msgs = msgs.drop 10) ∧
    (∀ (h : List StoredChatMessage) (m : StoredChatMessage),
       h.length < MAX_HISTORY → pushChat h m = h ++ [m]) ∧
    (∀ (h : List StoredChatMessage) (m : StoredChatMessage),
       h.length = MAX_HISTORY → pushChat h m = h.tail ++ [m]) ∧
    (∀ (h : List StoredChatMessage) (m : StoredChatMessage),
       h.length ≤ MAX_HISTORY → (pushChat h m).length ≤ MAX_HISTORY) := by
  have hbase : ∀ msgs : List StoredChatMessage,
      List.foldl pushChat [] msgs = msgs.drop (msgs.length - MAX_HISTORY) := by
    intro msgs
    have := foldl_pushChat msgs [] (by simp [MAX_HISTORY])
    simpa using this
  refine ⟨hbase, ?_, pushChat_of_lt, pushChat_of_eq, ?_⟩
  · intro msgs hlen
    rw [hbase msgs, hlen]
    rfl
  · intro h m hh
    rcases lt_or_eq_of_le hh with hlt | heq
    · rw [pushChat_of_lt h m hlt]
      simp
      omega
    · rw [pushChat_of_eq h m heq]
      have hne : h ≠ [] := by
        intro hnil
        rw [hnil] at heq
        simp [MAX_HISTORY] at heq
      obtain ⟨hd, tl, rfl⟩ := List.exists_cons_of_ne_nil hne
      simp only [List.length_cons] at heq
      simp only [List.tail_cons, List.length_append, List.length_singleton]
      omega

/-- Closed instance of C7: 60 distinct appends into the empty buffer leave
exactly the last 50 in order, and an append to a short buffer is a plain
tail push. -/
theorem chat_history_bound_witness :
    List.foldl pushChat [] ((List.range 60).map chatFixture) =
      ((List.range 60).map chatFixture).drop 10 ∧
    pushChat [] (chatFixture 0) = [chatFixture 0] := by
  exact ⟨chat_history_bound.2.1 _ (by simp),
         chat_history_bound.2.2.1 [] (chatFixture 0) (by simp [MAX_HISTORY])⟩

/-- C6 (amended). Persistence round-trip with boot normalization, as the
queue-aware loader actually behaves: serializing and re-loading a
`ServerState` preserves the controls flag, proxy flag, queue, queue index
and media URL; the video state's `timestamp` is always reset to the boot
instant and `paused` is always forced to `true`; and `time` is preserved
for a paused snapshot but advanced by the elapsed downtime
`(boot − timestamp)/1000` for a playing one. -/
theorem persistence_roundtrip (s : ServerState) (bootNow : ℚ) :
    deserializeState (serializeState s) bootNow =
      { areUserControlsAllowed := s.areUserControlsAllowed
        isProxyEnabled := s.isProxyEnabled
        currentVideoState :=
          { url := s.currentVideoState.url
            time :=
              if s.currentVideoState.paused then s.currentVideoState.time
              else s.currentVideoState.time +
                (bootNow - s.currentVideoState.timestamp) / 1000
            paused := true
            timestamp := bootNow }
        videoQueue := s.videoQueue
        currentQueueIndex := s.currentQueueIndex } := by
  cases hp : s.currentVideoState.paused <;>
    simp [deserializeState, serializeState, mergeWithDefault, loadNormalize, hp]

/-- Refutation of C6 as stated: for a snapshot that was playing, the loader
also rewrites the `time` field (not just `timestamp`/`paused`): position 10
recorded at 1000 ms, re-loaded at boot instant 6000 ms, comes back as 15. -/
theorem persistence_roundtrip_counterexample :
    (deserializeState (serializeState roundtripState) 6000).currentVideoState.time ≠
      roundtripState.currentVideoState.time ∧
    (deserializeState (serializeState roundtripState) 6000).currentVideoState.time = 15 ∧
    roundtripState.currentVideoState.time = 10 := by
  have h15 : (deserializeState (serializeState roundtripState) 6000).currentVideoState.time
      = 15 := by
    simp [deserializeState, serializeState, mergeWithDefault, loadNormalize, roundtripState]
    norm_num
  refine ⟨?_, h15, rfl⟩
  rw [h15]
  norm_num [roundtripState]

/-- C8 (amended). Persist-on-mutation for every event except `timeUpdate`:
whenever handling an inbound message other than `timeUpdate` changes the
persisted `serverState` in any way, a `persistState` call is among the
handler's effects. (`timeUpdate` is the one mutating handler with no
persistence write.) -/
theorem persist_on_mutation (ae : Option String) (st : HubState) (sid : String)
    (msg : InMsg) (now : ℚ) (fid : String)
    (hmsg : ∀ t p, msg ≠ InMsg.timeUpdateMsg t p)
    (hchange : (handleMessage ae st sid msg now fid).1.serverState ≠ st.serverState) :
    Effect.persist ∈ (handleMessage ae st sid msg now fid).2 := by
  rcases hsd : mapGet st.clients sid with _ | sender
  · exact absurd (by simp [handleMessage, hsd]) hchange
  cases msg with
  | authGoogle v =>
      rcases v with _ | _ | p
      · exact absurd (by simp [handleMessage, hsd]) hchange
      · exact absurd (by simp [handleMessage, hsd]) hchange
      · exact absurd (by simp [handleMessage, hsd]) hchange
  | authDev e =>
      cases hm : adminEmailMatch ae (some e) <;>
        exact absurd (by simp [handleMessage, hsd, hm]) hchange
  | chat text image =>
      exact absurd (by simp [handleMessage, hsd]) hchange
  | toggleUserControls v =>
      cases hAdm : sender.isAdmin
      · exact absurd (by simp [handleMessage, hsd, hAdm]) hchange
      · simp [handleMessage, hsd, hAdm]
  | toggleProxy v =>
      cases hAdm : sender.isAdmin
      · exact absurd (by simp [handleMessage, hsd, hAdm]) hchange
      · simp [handleMessage, hsd, hAdm]
  | getUsers =>
      cases hAdm : sender.isAdmin <;>
        exact absurd (by simp [handleMessage, hsd, hAdm]) hchange
  | muteUser t =>
      cases hAdm : sender.isAdmin
      · exact absurd (by simp [handleMessage, hsd, hAdm]) hchange
      · rcases ht : toggleMuteFirst st.clients t with _ | cs2 <;>
          exact absurd (by simp [handleMessage, hsd, hAdm, ht]) hchange
  | kickUser t =>
      cases hAdm : sender.isAdmin
      · exact absurd (by simp [handleMessage, hsd, hAdm]) hchange
      · rcases hf : st.clients.find? (fun kc => kc.2.userId == t) with _ | kc <;>
          exact absurd (by simp [handleMessage, hsd, hAdm, hf]) hchange
  | sync u tm p =>
      cases hg : sender.isAdmin || st.serverState.areUserControlsAllowed
      · exact absurd (by simp [handleMessage, hsd, hg]) hchange
      · simp [handleMessage, hsd, hg]
  | forceSync u tm p =>
      cases hg : sender.isAdmin || st.serverState.areUserControlsAllowed
      · exact absurd (by simp [handleMessage, hsd, hg]) hchange
      · simp [handleMessage, hsd, hg]
  | timeUpdateMsg tm p =>
      exact absurd rfl (hmsg tm p)
  | ready v =>
      exact absurd (by simp [handleMessage, hsd]) hchange
  | load url =>
      cases hAdm : sender.isAdmin
      · exact absurd (by simp [handleMessage, hsd, hAdm]) hchange
      · simp [handleMessage, hsd, hAdm]
  | queueAdd video =>
      simp [handleMessage, hsd]
  | queuePlayNext video =>
      cases hAdm : sender.isAdmin
      · exact absurd (by simp [handleMessage, hsd, hAdm]) hchange
      · simp [handleMessage, hsd, hAdm]
  | queuePlayNow video =>
      cases hAdm : sender.isAdmin
      · exact absurd (by simp [handleMessage, hsd, hAdm]) hchange
      · simp [handleMessage, hsd, hAdm]
  | queueRemove itemId =>
      cases hAdm : sender.isAdmin
      · exact absurd (by simp [handleMessage, hsd, hAdm]) hchange
      · rcases hf : st.serverState.videoQueue.findIdx? (fun item => item.id == itemId)
          with _ | i
        · exact absurd (by simp [handleMessage, hsd, hAdm, hf]) hchange
        · simp [handleMessage, hsd, hAdm, hf]
  | queueReorder f t =>
      cases hAdm : sender.isAdmin
      · exact absurd (by simp [handleMessage, hsd, hAdm]) hchange
      · by_cases hb : 0 ≤ f ∧ f < (st.serverState.videoQueue.length : Int) ∧
            0 ≤ t ∧ t < (st.serverState.videoQueue.length : Int)
        · simp [handleMessage, hsd, hAdm, hb]
        · exact absurd (by simp [handleMessage, hsd, hAdm, hb]) hchange
  | queueGet =>
      exact absurd (by simp [handleMessage, hsd]) hchange
  | videoEnded =>
      rcases hq : st.serverState.videoQueue with _ | ⟨a, rest⟩
      · exact absurd (by simp [handleMessage, hsd, hq]) hchange
      · rcases rest with _ | ⟨b, rest2⟩ <;> simp [handleMessage, hsd, hq]
  | ping startTime =>
      exact absurd (by simp [handleMessage, hsd]) hchange

/-- Refutation of C8 as stated for `timeUpdate`: an admin's `timeUpdate`
rewrites the video state's time/paused/timestamp but the handler performs no
effect at all — in particular no `persistState` call. -/
theorem persist_on_mutation_counterexample :
    (handleMessage none oneAdminState "s1" (InMsg.timeUpdateMsg 42 false) 5 "f").1.serverState ≠
      oneAdminState.serverState ∧
    (handleMessage none oneAdminState "s1" (InMsg.timeUpdateMsg 42 false) 5 "f").2 = [] := by
  decide

/-- C9 (amended). Chat history storage of system notices: the transient
"logged in" notice (join) and the "left" notice (leave) are both broadcast
but never stored in the chat history, while admin action notices (controls
toggled) are appended to the stored history exactly like user chat. -/
theorem join_leave_history (ae : Option String) (st : HubState) (sid : String)
    (p : GooglePayload) (now : ℚ) (fid : String) :
    (∀ leaver, mapGet st.clients sid = some leaver →
       (disconnectStep st sid).1.chatHistory = st.chatHistory ∧
       Effect.emitAll (OutMsg.chatLite "System" (leaver.nick ++ " left") true)
         ∈ (disconnectStep st sid).2) ∧
    (∀ sender, mapGet st.clients sid = some sender →
       (handleMessage ae st sid (InMsg.authGoogle (some (some p))) now fid).1.chatHistory
         = st.chatHistory ∧
       Effect.broadcastFrom sid (OutMsg.chatLite "System"
           ((googleAuthedClient sender p ae).nick ++ " logged in with Google") true)
         ∈ (handleMessage ae st sid (InMsg.authGoogle (some (some p))) now fid).2) ∧
    (∀ sender v, mapGet st.clients sid = some sender → sender.isAdmin = true →
       (handleMessage ae st sid (InMsg.toggleUserControls v) now fid).1.chatHistory
         = pushChat st.chatHistory
             { nick := "System",
               text := if v then "🔓 User controls enabled"
                       else "🔒 User controls disabled",
               isAdmin := false, isSystem := true, timestamp := now,
               picture := none, image := none } ∧
       Effect.emitAll (OutMsg.chatMsg
           { nick := "System",
             text := if v then "🔓 User controls enabled"
                     else "🔒 User controls disabled",
             isAdmin := false, isSystem := true, timestamp := now,
             picture := none, image := none })
         ∈ (handleMessage ae st sid (InMsg.toggleUserControls v) now fid).2) := by
  refine ⟨?_, ?_, ?_⟩
  · intro leaver hl
    refine ⟨by simp [disconnectStep, hl], by simp [disconnectStep, hl]⟩
  · intro sender hs
    refine ⟨by simp [handleMessage, hs], by simp [handleMessage, hs]⟩
  · intro sender v hs hAdm
    refine ⟨by simp [handleMessage, hs, hAdm], by simp [handleMessage, hs, hAdm]⟩

/-- Refutation of C9 as stated: when the only guest disconnects, the "left"
notice is broadcast but the stored chat history stays empty — the leave
notice is not stored, contrary to the claimed join/leave asymmetry. -/
theorem leave_notice_counterexample :
    (disconnectStep oneGuestState "s1").1.chatHistory = [] ∧
    Effect.emitAll (OutMsg.chatLite "System" "Guest left" true)
      ∈ (disconnectStep oneGuestState "s1").2 := by
  decide

/-- Closed instance of C9 (amended) at a concrete hub state. -/
theorem join_leave_history_witness :
    (disconnectStep oneGuestState "s1").1.chatHistory = oneGuestState.chatHistory ∧
    (handleMessage none oneAdminState "s1" (InMsg.toggleUserControls true) 3 "f").1.chatHistory
      = pushChat oneAdminState.chatHistory
          { nick := "System", text := "🔓 User controls enabled",
            isAdmin := false, isSystem := true, timestamp := 3,
            picture := none, image := none } := by
  refine ⟨((join_leave_history none oneGuestState "s1"
      { sub := "g", name := none, given_name := none, email := none, picture := none }
      3 "f").1 guestClient (by decide)).1, ?_⟩
  have h := ((join_leave_history none oneAdminState "s1"
      { sub := "g", name := none, given_name := none, email := none, picture := none }
      3 "f").2.2 adminClient true (by decide) (by decide)).1
  simpa using h

/-- C10 (amended). Voice relay semantics: a frame from an unknown or muted
sender is relayed to nobody; a frame from an unmuted sender is relayed to
exactly the other live connections — every registered socket id except the
sender's, regardless of the recipients' mute flags. -/
theorem voice_relay (st : HubState) (sid : String) :
    (mapGet st.clients sid = none → voiceRecipients st sid = []) ∧
    (∀ sender, mapGet st.clients sid = some sender → sender.isMuted = true →
       voiceRecipients st sid = []) ∧
    (∀ sender, mapGet st.clients sid = some sender → sender.isMuted = false →
       ∀ k, k ∈ voiceRecipients st sid ↔
         (k ∈ st.clients.map (fun kc => kc.1) ∧ k ≠ sid)) := by
  refine ⟨fun h => by simp [voiceRecipients, h],
          fun sender h hm => by simp [voiceRecipients, h, hm], ?_⟩
  intro sender h hm k
  simp [voiceRecipients, h, hm]

/-- Refutation of C10 as stated: a muted participant still receives voice
frames — with sender `sA` unmuted and participant `sB` muted, `sB` is in
the fan-out. -/
theorem voice_mute_counterexample :
    (mapGet voiceState.clients "sB").map (fun c => c.isMuted) = some true ∧
    "sB" ∈ voiceRecipients voiceState "sA" := by
  decide

/-- Closed instance of C10 (amended): the muted sender's frames go nowhere;
the unmuted sender's frames reach exactly the other participant. -/
theorem voice_relay_witness :
    voiceRecipients voiceState "sB" = [] ∧
    ("sB" ∈ voiceRecipients voiceState "sA" ↔
      ("sB" ∈ voiceState.clients.map (fun kc => kc.1) ∧ "sB" ≠ "sA")) := by
  exact ⟨(voice_relay voiceState "sB").2.1
           { guestClient with userId := "temp_sB", isMuted := true }
           (by decide) (by decide),
         (voice_relay voiceState "sA").2.2
           { guestClient with userId := "temp_sA" }
           (by decide) (by decide) "sB"⟩

/-- Closed instance of C8 (amended): a guest's `queue-add` mutates the
queue, and accordingly the handler persists. -/
theorem persist_on_mutation_witness :
    Effect.persist ∈ (handleMessage none oneGuestState "s1"
      (InMsg.queueAdd { videoId := "v", url := "u", title := "t",
                        thumbnail := "th", author := "a", duration := "d" })
      3 "q1").2 := by
  refine persist_on_mutation none oneGuestState "s1" _ 3 "q1"
    (fun t p h => InMsg.noConfusion h) (by decide)

theorem getElem?_insertIdx_of_lt' (x : QueueItem) :
    ∀ (l : List QueueItem) (n k : Nat), k < n → (l.insertIdx n x)[k]? = l[k]?
  | [], n, k, hk => by
      cases n with
      | zero => omega
      | succ m => simp
  | hd :: tl, n, k, hk => by
      cases n with
      | zero => omega
      | succ m =>
          rw [List.insertIdx_succ_cons]
          cases k with
          | zero => simp
          | succ j =>
              simp only [List.getElem?_cons_succ]
              exact getElem?_insertIdx_of_lt' x tl m j (by omega)

theorem getElem?_insertIdx_self' (x : QueueItem) :
    ∀ (l : List QueueItem) (n : Nat), n ≤ l.length → (l.insertIdx n x)[n]? = some x
  | [], n, hn => by
      cases n with
      | zero => rfl
      | succ m => simp at hn
  | hd :: tl, n, hn => by
      cases n with
      | zero => rfl
      | succ m =>
          rw [List.insertIdx_succ_cons]
          simp only [List.getElem?_cons_succ]
          exact getElem?_insertIdx_self' x tl m (by simpa using hn)

theorem getElem?_insertIdx_of_gt' (x : QueueItem) :
    ∀ (l : List QueueItem) (n k : Nat), n < k → n ≤ l.length →
      (l.insertIdx n x)[k]? = l[k - 1]?
  | [], n, k, hk, hn => by
      have hn0 : n = 0 := by simpa using hn
      subst hn0
      cases k with
      | zero => omega
      | succ j => simp
  | hd :: tl, n, k, hk, hn => by
      cases n with
      | zero =>
          cases k with
          | zero => omega
          | succ j => simp
      | succ m =>
          rw [List.insertIdx_succ_cons]
          cases k with
          | zero => omega
          | succ j =>
              simp only [List.getElem?_cons_succ, Nat.add_sub_cancel]
              rw [getElem?_insertIdx_of_gt' x tl m j (by omega) (by simpa using hn)]
              cases j with
              | zero => omega
              | succ i => simp

theorem listMove_length (q : List QueueItem) (fn tn : Nat) (hf : fn < q.length)
    (ht : tn < q.length) : (listMove q fn tn).length = q.length := by
  unfold listMove
  rw [List.getElem?_eq_getElem hf]
  have he : (q.eraseIdx fn).length = q.length - 1 := by
    rw [List.length_eraseIdx, if_pos hf]
  rw [List.length_insertIdx tn _ (by omega), he]
  omega

theorem reorder_tracks_core (q : List QueueItem) (f t idx : Int)
    (hf0 : 0 ≤ f) (hf1 : f < (q.length : Int)) (ht0 : 0 ≤ t)
    (ht1 : t < (q.length : Int)) (hi0 : 0 ≤ idx) (hi1 : idx < (q.length : Int)) :
    0 ≤ reorderIndex idx f t ∧ reorderIndex idx f t < (q.length : Int) ∧
    (listMove q f.toNat t.toNat)[(reorderIndex idx f t).toNat]? = q[idx.toNat]? := by
  obtain ⟨fn, rfl⟩ : ∃ n : Nat, f = (n : Int) := ⟨f.toNat, (Int.toNat_of_nonneg hf0).symm⟩
  obtain ⟨tn, rfl⟩ : ∃ n : Nat, t = (n : Int) := ⟨t.toNat, (Int.toNat_of_nonneg ht0).symm⟩
  obtain ⟨i, rfl⟩ : ∃ n : Nat, idx = (n : Int) :=
    ⟨idx.toNat, (Int.toNat_of_nonneg hi0).symm⟩
  have hfq : fn < q.length := by exact_mod_cast hf1
  have htq : tn < q.length := by exact_mod_cast ht1
  have hiq : i < q.length := by exact_mod_cast hi1
  have hx : q[fn]? = some (q.get ⟨fn, hfq⟩) := by
    rw [List.getElem?_eq_getElem hfq]
    rfl
  have hmove : listMove q ((fn : Int)).toNat ((tn : Int)).toNat =
      (q.eraseIdx fn).insertIdx tn (q.get ⟨fn, hfq⟩) := by
    unfold listMove
    simp only [Int.toNat_natCast]
    rw [hx]
  have herase : (q.eraseIdx fn).length = q.length - 1 := by
    rw [List.length_eraseIdx, if_pos hfq]
  unfold reorderIndex
  by_cases h1 : (i : Int) = (fn : Int)
  · have hif : i = fn := by exact_mod_cast h1
    subst hif
    rw [if_pos h1]
    refine ⟨by omega, by omega, ?_⟩
    rw [hmove, Int.toNat_natCast, Int.toNat_natCast]
    rw [getElem?_insertIdx_self' _ _ tn (by omega), hx]
  · rw [if_neg h1]
    by_cases h2 : (fn : Int) < (i : Int) ∧ (tn : Int) ≥ (i : Int)
    · rw [if_pos h2]
      have hfi : fn < i := by exact_mod_cast h2.1
      have hti : i ≤ tn := by exact_mod_cast h2.2
      refine ⟨by omega, by omega, ?_⟩
      have htn : ((i : Int) - 1).toNat = i - 1 := by omega
      rw [hmove, htn, Int.toNat_natCast]
      rw [getElem?_insertIdx_of_lt' _ _ tn (i - 1) (by omega)]
      rw [List.getElem?_eraseIdx_of_ge _ fn (i - 1) (by omega)]
      have : i - 1 + 1 = i := by omega
      rw [this]
    · rw [if_neg h2]
      by_cases h3 : (fn : Int) > (i : Int) ∧ (tn : Int) ≤ (i : Int)
      · rw [if_pos h3]
        have hfi : i < fn := by exact_mod_cast h3.1
        have hti : tn ≤ i := by exact_mod_cast h3.2
        refine ⟨by omega, by exact_mod_cast (by omega : (i : Int) + 1 < q.length), ?_⟩
        have htn : ((i : Int) + 1).toNat = i + 1 := by omega
        rw [hmove, htn, Int.toNat_natCast]
        rw [getElem?_insertIdx_of_gt' _ _ tn (i + 1) (by omega) (by omega)]
        simp only [Nat.add_sub_cancel]
        rw [List.getElem?_eraseIdx_of_lt _ fn i hfi]
      · rw [if_neg h3]
        refine ⟨hi0, hi1, ?_⟩
        rw [hmove]
        simp only [Int.toNat_natCast]
        have hne : fn ≠ i := fun h => h1 (by exact_mod_cast h.symm)
        rcases Nat.lt_or_ge fn i with hfi | hfi
        · -- fn < i, hence tn < i (otherwise h2)
          have hti : tn < i := by
            rcases Nat.lt_or_ge tn i with h | h
            · exact h
            · exact absurd ⟨by exact_mod_cast hfi, by exact_mod_cast h⟩ h2
          rw [getElem?_insertIdx_of_gt' _ _ tn i (by omega) (by omega)]
          rw [List.getElem?_eraseIdx_of_ge _ fn (i - 1) (by omega)]
          have : i - 1 + 1 = i := by omega
          rw [this]
        · -- i < fn, hence i < tn (otherwise h3)
          have hfi2 : i < fn := by omega
          have hti : i < tn := by
            rcases Nat.lt_or_ge i tn with h | h
            · exact h
            · exact absurd ⟨by exact_mod_cast hfi2, by exact_mod_cast h⟩ h3
          rw [getElem?_insertIdx_of_lt' _ _ tn i hti]
          rw [List.getElem?_eraseIdx_of_lt _ fn i hfi2]

theorem reorderIndex_of_neg_one (f t : Int) (hf0 : 0 ≤ f) (ht0 : 0 ≤ t) :
    reorderIndex (-1) f t = -1 := by
  unfold reorderIndex
  rw [if_neg (by omega), if_neg (by omega), if_neg (by omega)]

/-- C4. Reorder index tracking: an admin `queue-reorder(0, 2)` on
`[A, B, C]` with `currentQueueIndex = 1` (B active) yields `[B, C, A]` with
`currentQueueIndex = 0`, still the position of B; in general a valid
reorder performs exactly the one-element splice move, keeps the queue
length, leaves `currentQueueIndex = -1` untouched, and when a queue item is
active adjusts `currentQueueIndex` so that it designates the same logical
item after the move. -/
theorem queue_reorder_tracking (A B C : QueueItem) (ae : Option String) (now : ℚ)
    (fid : String) (st : HubState) (sid : String) (sender : Client) (f t : Int)
    (hs : mapGet st.clients sid = some sender) (hAdm : sender.isAdmin = true)
    (hf0 : 0 ≤ f) (hf1 : f < (st.serverState.videoQueue.length : Int))
    (ht0 : 0 ≤ t) (ht1 : t < (st.serverState.videoQueue.length : Int)) :
    ((handleMessage ae (reorderState A B C) "s1" (InMsg.queueReorder 0 2) now
        fid).1.serverState.videoQueue = [B, C, A] ∧
     (handleMessage ae (reorderState A B C) "s1" (InMsg.queueReorder 0 2) now
        fid).1.serverState.currentQueueIndex = 0 ∧
     (reorderState A B C).serverState.videoQueue[(1 : Int).toNat]? = some B ∧
     (handleMessage ae (reorderState A B C) "s1" (InMsg.queueReorder 0 2) now
        fid).1.serverState.videoQueue[(0 : Int).toNat]? = some B) ∧
    ((handleMessage ae st sid (InMsg.queueReorder f t) now fid).1.serverState.videoQueue =
       listMove st.serverState.videoQueue f.toNat t.toNat ∧
     (handleMessage ae st sid
        (InMsg.queueReorder f t) now fid).1.serverState.currentQueueIndex =
       reorderIndex st.serverState.currentQueueIndex f t ∧
     (handleMessage ae st sid
        (InMsg.queueReorder f t) now fid).1.serverState.videoQueue.length =
       st.serverState.videoQueue.length ∧
     (st.serverState.currentQueueIndex = -1 →
       (handleMessage ae st sid
          (InMsg.queueReorder f t) now fid).1.serverState.currentQueueIndex = -1) ∧
     (0 ≤ st.serverState.currentQueueIndex →
      st.serverState.currentQueueIndex < (st.serverState.videoQueue.length : Int) →
       0 ≤ reorderIndex st.serverState.currentQueueIndex f t ∧
       reorderIndex st.serverState.currentQueueIndex f t <
         (st.serverState.videoQueue.length : Int) ∧
       (handleMessage ae st sid (InMsg.queueReorder f t) now
          fid).1.serverState.videoQueue[(reorderIndex st.serverState.currentQueueIndex
            f t).toNat]? =
         st.serverState.videoQueue[st.serverState.currentQueueIndex.toNat]?)) := by
  have hguard : 0 ≤ f ∧ f < (st.serverState.videoQueue.length : Int) ∧
      0 ≤ t ∧ t < (st.serverState.videoQueue.length : Int) := ⟨hf0, hf1, ht0, ht1⟩
  have hres : (handleMessage ae st sid (InMsg.queueReorder f t) now fid).1.serverState =
      { st.serverState with
        videoQueue := listMove st.serverState.videoQueue f.toNat t.toNat,
        currentQueueIndex := reorderIndex st.serverState.currentQueueIndex f t } := by
    simp [handleMessage, hs, hAdm, hguard]
  have hfq : f.toNat < st.serverState.videoQueue.length := by omega
  have htq : t.toNat < st.serverState.videoQueue.length := by omega
  refine ⟨⟨rfl, rfl, rfl, rfl⟩, ?_, ?_, ?_, ?_, ?_⟩
  · rw [hres]
  · rw [hres]
  · rw [hres]
    exact listMove_length _ _ _ hfq htq
  · intro hneg
    rw [hres]
    simp only [hneg]
    exact reorderIndex_of_neg_one f t hf0 ht0
  · intro hi0 hi1
    have hcore := reorder_tracks_core st.serverState.videoQueue f t
      st.serverState.currentQueueIndex hf0 hf1 ht0 ht1 hi0 hi1
    refine ⟨hcore.1, hcore.2.1, ?_⟩
    rw [hres]
    exact hcore.2.2

/-- Closed instance of C4 at concrete items and a concrete out-of-queue
index: the reorder result and index tracking at `[A, B, C]`. -/
theorem queue_reorder_tracking_witness :
    (handleMessage none (reorderState (queueItemFixture "A") (queueItemFixture "B")
        (queueItemFixture "C")) "s1" (InMsg.queueReorder 0 2) 3
        "f").1.serverState.videoQueue =
      [queueItemFixture "B", queueItemFixture "C", queueItemFixture "A"] ∧
    (handleMessage none (reorderState (queueItemFixture "A") (queueItemFixture "B")
        (queueItemFixture "C")) "s1" (InMsg.queueReorder 0 2) 3
        "f").1.serverState.currentQueueIndex = 0 ∧
    (handleMessage none (reorderState (queueItemFixture "A") (queueItemFixture "B")
        (queueItemFixture "C")) "s1" (InMsg.queueReorder 0 2) 3
        "f").1.serverState.videoQueue[((reorderIndex 1 0 2).toNat)]? =
      some (queueItemFixture "B") := by
  have h := queue_reorder_tracking (queueItemFixture "A") (queueItemFixture "B")
    (queueItemFixture "C") none 3 "f"
    (reorderState (queueItemFixture "A") (queueItemFixture "B") (queueItemFixture "C"))
    "s1" adminClient 0 2 (by decide) (by decide)
    (by decide) (by decide) (by decide) (by decide)
  refine ⟨h.1.1, h.1.2.1, ?_⟩
  have h2 := (h.2.2.2.2.2 (by decide) (by decide)).2.2
  simpa using h2

theorem hash_ne_temp (g s : String) : hashGoogleId g ≠ "temp_" ++ s := by
  intro h
  have hd := congrArg String.data h
  rw [show hashGoogleId g = "h_" ++ g from rfl] at hd
  rw [String.data_append, String.data_append] at hd
  rw [show ("h_" : String).data = ['h', '_'] from rfl,
      show ("temp_" : String).data = ['t', 'e', 'm', 'p', '_'] from rfl] at hd
  simp at hd

theorem eq_of_mem_of_length_le_one {α : Type} {l : List α} {a b : α}
    (hl : l.length ≤ 1) (ha : a ∈ l) (hb : b ∈ l) : a = b := by
  match l with
  | [] => cases ha
  | [x] =>
      simp only [List.mem_singleton] at ha hb
      rw [ha, hb]
  | x :: y :: rest => simp at hl

theorem mapGet_cons_of_eq {hd : String × Client} {tl : List (String × Client)}
    {k : String} (h : hd.1 = k) : mapGet (hd :: tl) k = some hd.2 := by
  unfold mapGet
  rw [List.find?_cons_of_pos _ (by simpa using h)]
  rfl

theorem mapGet_cons_of_ne {hd : String × Client} {tl : List (String × Client)}
    {k : String} (h : hd.1 ≠ k) : mapGet (hd :: tl) k = mapGet tl k := by
  unfold mapGet
  rw [List.find?_cons_of_neg _ (by simpa using h)]

theorem mapGet_some_mem {cs : List (String × Client)} {k : String} {c : Client}
    (h : mapGet cs k = some c) : (k, c) ∈ cs := by
  induction cs with
  | nil => simp [mapGet] at h
  | cons hd tl ih =>
      by_cases he : hd.1 = k
      · rw [mapGet_cons_of_eq he] at h
        have heq : hd = (k, c) := Prod.ext he (Option.some.inj h)
        rw [← heq]
        exact List.mem_cons_self hd tl
      · rw [mapGet_cons_of_ne he] at h
        exact List.mem_cons_of_mem _ (ih h)

theorem mem_mapGet_isSome {cs : List (String × Client)} {k : String} {c : Client}
    (h : (k, c) ∈ cs) : (mapGet cs k).isSome := by
  induction cs with
  | nil => cases h
  | cons hd tl ih =>
      by_cases he : hd.1 = k
      · rw [mapGet_cons_of_eq he]
        rfl
      · rcases List.mem_cons.mp h with heq | hm
        · exact absurd (by rw [← heq]) he
        · rw [mapGet_cons_of_ne he]
          exact ih hm

theorem keys_mapUpdate (cs : List (String × Client)) (k : String) (v : Client) :
    (mapUpdate cs k v).map (fun kc => kc.1) = cs.map (fun kc => kc.1) := by
  unfold mapUpdate
  rw [List.map_map]
  apply List.map_congr_left
  intro kc _
  simp only [Function.comp_apply]
  split
  · next hbeq =>
      simp only [beq_iff_eq] at hbeq
      rw [hbeq]
  · rfl

theorem mapUpdate_cons_of_eq {hd : String × Client} {tl : List (String × Client)}
    {k : String} {v : Client} (h : hd.1 = k) :
    mapUpdate (hd :: tl) k v = (k, v) :: mapUpdate tl k v := by
  unfold mapUpdate
  rw [List.map_cons, if_pos (by simpa using h)]

theorem mapUpdate_cons_of_ne {hd : String × Client} {tl : List (String × Client)}
    {k : String} {v : Client} (h : hd.1 ≠ k) :
    mapUpdate (hd :: tl) k v = hd :: mapUpdate tl k v := by
  unfold mapUpdate
  rw [List.map_cons, if_neg (by simpa using h)]

theorem mapGet_mapUpdate_of_isSome (cs : List (String × Client)) (k : String)
    (v : Client) (h : (mapGet cs k).isSome) :
    mapGet (mapUpdate cs k v) k = some v := by
  induction cs with
  | nil => simp [mapGet] at h
  | cons hd tl ih =>
      by_cases he : hd.1 = k
      · rw [mapUpdate_cons_of_eq he, mapGet_cons_of_eq rfl]
      · rw [mapUpdate_cons_of_ne he, mapGet_cons_of_ne he]
        rw [mapGet_cons_of_ne he] at h
        exact ih h

theorem value_of_key_unique {cs : List (String × Client)} {sid : String}
    {sender : Client} (hK : KeysNodup cs) (hget : mapGet cs sid = some sender) :
    ∀ x ∈ cs, x.1 = sid → x.2 = sender := by
  induction cs with
  | nil => intro x hx; cases hx
  | cons hd tl ih =>
      intro x hx hxk
      have hK2 : hd.1 ∉ tl.map (fun kc => kc.1) ∧ KeysNodup tl := by
        unfold KeysNodup at hK ⊢
        simpa using hK
      by_cases he : hd.1 = sid
      · rw [mapGet_cons_of_eq he] at hget
        have hsend : hd.2 = sender := Option.some.inj hget
        rcases List.mem_cons.mp hx with heq | hm
        · rw [heq]
          exact hsend
        · have : hd.1 ∈ tl.map (fun kc => kc.1) := by
            rw [he, ← hxk]
            exact List.mem_map_of_mem _ hm
          exact absurd this hK2.1
      · rw [mapGet_cons_of_ne he] at hget
        rcases List.mem_cons.mp hx with heq | hm
        · rw [heq] at hxk
          exact absurd hxk he
        · exact ih hK2.2 hget x hm hxk

theorem keysNodup_of_sublist {cs cs' : List (String × Client)}
    (h : cs'.Sublist cs) (hK : KeysNodup cs) : KeysNodup cs' :=
  List.Nodup.sublist (h.map (fun kc => kc.1)) hK

theorem atMostOne_of_sublist {cs cs' : List (String × Client)}
    (h : cs'.Sublist cs) (hA : AtMostOnePerId cs) : AtMostOnePerId cs' :=
  fun g => le_trans (List.Sublist.countP_le _ h) (hA g)

theorem keysNodup_mapUpdate (cs : List (String × Client)) (sid : String) (v : Client)
    (hK : KeysNodup cs) : KeysNodup (mapUpdate cs sid v) := by
  unfold KeysNodup
  rw [keys_mapUpdate]
  exact hK

theorem keysNodup_map_preserve (cs : List (String × Client))
    (f : String × Client → String × Client) (hf : ∀ kc, (f kc).1 = kc.1)
    (hK : KeysNodup cs) : KeysNodup (cs.map f) := by
  unfold KeysNodup
  rw [List.map_map]
  have : cs.map ((fun kc => kc.1) ∘ f) = cs.map (fun kc => kc.1) :=
    List.map_congr_left (fun kc _ => hf kc)
  rw [this]
  exact hK

theorem atMostOne_map_preserve (cs : List (String × Client))
    (f : String × Client → String × Client)
    (hf : ∀ kc, (f kc).2.userId = kc.2.userId) (hA : AtMostOnePerId cs) :
    AtMostOnePerId (cs.map f) := by
  intro g
  rw [List.countP_map]
  have : List.countP ((fun kc => kc.2.userId == hashGoogleId g) ∘ f) cs
      = List.countP (fun kc => kc.2.userId == hashGoogleId g) cs := by
    apply List.countP_congr
    intro kc _
    simp [hf kc]
  rw [this]
  exact hA g

theorem keysNodup_mapSet (cs : List (String × Client)) (k : String) (v : Client)
    (hK : KeysNodup cs) : KeysNodup (mapSet cs k v) := by
  unfold mapSet
  split
  · apply keysNodup_map_preserve _ _ ?_ hK
    intro kc
    split
    · next hbeq => exact (beq_iff_eq.mp hbeq).symm
    · rfl
  · next hany =>
      unfold KeysNodup
      rw [List.map_append, List.nodup_append]
      refine ⟨hK, List.nodup_singleton k, ?_⟩
      intro a ha hb
      rw [show List.map (fun kc => kc.1) [(k, v)] = [k] from rfl,
          List.mem_singleton] at hb
      rw [hb] at ha
      obtain ⟨kc, hkc, hkeq⟩ := List.mem_map.mp ha
      exact hany (List.any_eq_true.mpr ⟨kc, hkc, by simpa using hkeq⟩)

theorem atMostOne_mapSet_of_not_hash (cs : List (String × Client)) (k : String)
    (v : Client) (hv : ∀ g, v.userId ≠ hashGoogleId g) (hA : AtMostOnePerId cs) :
    AtMostOnePerId (mapSet cs k v) := by
  intro g
  unfold mapSet
  split
  · rw [List.countP_map]
    refine le_trans (List.countP_mono_left ?_) (hA g)
    intro kc _ hp
    simp only [Function.comp_apply] at hp
    by_cases hbeq : (kc.1 == k) = true
    · rw [if_pos hbeq] at hp
      simp only [beq_iff_eq] at hp
      exact absurd hp (hv g)
    · rw [if_neg hbeq] at hp
      exact hp
  · rw [List.countP_append]
    have h0 : List.countP (fun kc => kc.2.userId == hashGoogleId g) [(k, v)] = 0 := by
      simp [List.countP_cons, hv g]
    rw [h0]
    simpa using hA g

theorem atMostOne_mapUpdate_same_uid (cs : List (String × Client)) (sid : String)
    (v sender : Client) (hK : KeysNodup cs) (hget : mapGet cs sid = some sender)
    (huid : v.userId = sender.userId) (hA : AtMostOnePerId cs) :
    AtMostOnePerId (mapUpdate cs sid v) := by
  intro g
  unfold mapUpdate
  rw [List.countP_map]
  have : List.countP ((fun kc => kc.2.userId == hashGoogleId g) ∘
      (fun kc => if kc.1 == sid then (sid, v) else kc)) cs
      = List.countP (fun kc => kc.2.userId == hashGoogleId g) cs := by
    apply List.countP_congr
    intro kc hkc
    by_cases hbeq : (kc.1 == sid) = true
    · have hkey : kc.1 = sid := by simpa using hbeq
      have hval := value_of_key_unique hK hget kc hkc hkey
      simp [hkey, huid, hval]
    · have hne : kc.1 ≠ sid := by simpa using hbeq
      simp [hne]
  rw [this]
  exact hA g

theorem toggleMuteFirst_sig :
    ∀ (cs cs' : List (String × Client)) (t : String),
      toggleMuteFirst cs t = some cs' →
      cs'.map (fun kc => (kc.1, kc.2.userId)) = cs.map (fun kc => (kc.1, kc.2.userId))
  | [], cs', t, h => by cases h
  | hd :: tl, cs', t, h => by
      unfold toggleMuteFirst at h
      split at h
      · rw [← Option.some.inj h]
        simp [List.map_cons]
      · rcases ht : toggleMuteFirst tl t with _ | cs2
        · rw [ht] at h
          cases h
        · rw [ht] at h
          have hcs : hd :: cs2 = cs' := Option.some.inj h
          rw [← hcs]
          simp only [List.map_cons]
          rw [toggleMuteFirst_sig tl cs2 t ht]

theorem keysNodup_toggleMute {cs cs' : List (String × Client)} {t : String}
    (h : toggleMuteFirst cs t = some cs') (hK : KeysNodup cs) : KeysNodup cs' := by
  have hsig := toggleMuteFirst_sig cs cs' t h
  unfold KeysNodup at *
  have hkeys : cs'.map (fun kc => kc.1) = cs.map (fun kc => kc.1) := by
    have := congrArg (List.map (fun ku : String × String => ku.1)) hsig
    simpa [List.map_map, Function.comp] using this
  rw [hkeys]
  exact hK

theorem atMostOne_toggleMute {cs cs' : List (String × Client)} {t : String}
    (h : toggleMuteFirst cs t = some cs') (hA : AtMostOnePerId cs) :
    AtMostOnePerId cs' := by
  intro g
  have hsig := toggleMuteFirst_sig cs cs' t h
  have h1 : List.countP (fun kc => kc.2.userId == hashGoogleId g) cs'
      = List.countP (fun ku : String × String => ku.2 == hashGoogleId g)
          (cs'.map (fun kc => (kc.1, kc.2.userId))) := by
    rw [List.countP_map]
    rfl
  have h2 : List.countP (fun kc => kc.2.userId == hashGoogleId g) cs
      = List.countP (fun ku : String × String => ku.2 == hashGoogleId g)
          (cs.map (fun kc => (kc.1, kc.2.userId))) := by
    rw [List.countP_map]
    rfl
  rw [h1, hsig, ← h2]
  exact hA g

theorem findOtherHolder_none_spec {cs : List (String × Client)} {sid hid : String}
    (h : findOtherHolder cs sid hid = none) :
    ∀ x ∈ cs, x.1 ≠ sid → x.2.userId ≠ hid := by
  intro x hx hxs huid
  have hnp := List.find?_eq_none.mp h x hx
  simp only [Bool.and_eq_true, beq_iff_eq, bne_iff_ne, ne_eq, not_and] at hnp
  exact hnp huid hxs

theorem findOtherHolder_some_spec {cs : List (String × Client)} {sid hid : String}
    {e : String × Client} (h : findOtherHolder cs sid hid = some e) :
    e ∈ cs ∧ e.2.userId = hid ∧ e.1 ≠ sid := by
  have hp := List.find?_some h
  simp only [Bool.and_eq_true, beq_iff_eq, bne_iff_ne] at hp
  exact ⟨List.mem_of_find?_eq_some h, hp.1, hp.2⟩

theorem holders_unique {cs : List (String × Client)} (hA : AtMostOnePerId cs)
    {x y : String × Client} (g : String) (hx : x ∈ cs) (hy : y ∈ cs)
    (hux : x.2.userId = hashGoogleId g) (huy : y.2.userId = hashGoogleId g) :
    x = y := by
  have hlen : (cs.filter (fun kc => kc.2.userId == hashGoogleId g)).length ≤ 1 := by
    rw [← List.countP_eq_length_filter]
    exact hA g
  exact eq_of_mem_of_length_le_one hlen
    (List.mem_filter.mpr ⟨hx, by simpa using hux⟩)
    (List.mem_filter.mpr ⟨hy, by simpa using huy⟩)

theorem noOtherHolder_after_dedup {cs : List (String × Client)} {sid g txt : String}
    (hA : AtMostOnePerId cs) :
    ∀ x ∈ (dedupStep cs sid (hashGoogleId g) txt).1, x.1 ≠ sid →
      x.2.userId ≠ hashGoogleId g := by
  unfold dedupStep
  rcases hf : findOtherHolder cs sid (hashGoogleId g) with _ | e
  · intro x hx hxs
    exact findOtherHolder_none_spec hf x hx hxs
  · intro x hx hxs huid
    obtain ⟨hem, heu, _⟩ := findOtherHolder_some_spec hf
    have hxcs : x ∈ cs := List.mem_of_mem_filter hx
    have hxne : x.1 ≠ e.1 := by
      have := List.of_mem_filter hx
      simpa using this
    exact hxne (congrArg Prod.fst (holders_unique hA g hxcs hem huid heu))

theorem dedup_sublist (cs : List (String × Client)) (sid hid txt : String) :
    (dedupStep cs sid hid txt).1.Sublist cs := by
  unfold dedupStep
  rcases hf : findOtherHolder cs sid hid with _ | e
  · exact List.Sublist.refl cs
  · exact List.filter_sublist cs

theorem dedup_update_preserves (cs : List (String × Client)) (sid txt : String)
    (v : Client) (gv : String) (hvid : v.userId = hashGoogleId gv)
    (hK : KeysNodup cs) (hA : AtMostOnePerId cs) :
    KeysNodup (mapUpdate (dedupStep cs sid (hashGoogleId gv) txt).1 sid v) ∧
    AtMostOnePerId (mapUpdate (dedupStep cs sid (hashGoogleId gv) txt).1 sid v) := by
  have hsub := dedup_sublist cs sid (hashGoogleId gv) txt
  have hK1 : KeysNodup (dedupStep cs sid (hashGoogleId gv) txt).1 :=
    keysNodup_of_sublist hsub hK
  have hA1 : AtMostOnePerId (dedupStep cs sid (hashGoogleId gv) txt).1 :=
    atMostOne_of_sublist hsub hA
  have hno := @noOtherHolder_after_dedup cs sid gv txt hA
  refine ⟨keysNodup_mapUpdate _ _ _ hK1, ?_⟩
  intro g
  unfold mapUpdate
  rw [List.countP_map]
  by_cases hg : hashGoogleId g = hashGoogleId gv
  · have hcong : List.countP ((fun kc => kc.2.userId == hashGoogleId g) ∘
        (fun kc => if kc.1 == sid then (sid, v) else kc))
          (dedupStep cs sid (hashGoogleId gv) txt).1
        = List.countP (fun kc => kc.1 == sid)
            (dedupStep cs sid (hashGoogleId gv) txt).1 := by
      apply List.countP_congr
      intro kc hkc
      by_cases hbeq : (kc.1 == sid) = true
      · have hkey : kc.1 = sid := by simpa using hbeq
        simp [hkey, hvid, hg]
      · have hne : kc.1 ≠ sid := by simpa using hbeq
        have hu := hno kc hkc hne
        rw [← hg] at hu
        simp [hne, hu]
    rw [hcong]
    have hcnt : List.countP (fun kc => kc.1 == sid)
        (dedupStep cs sid (hashGoogleId gv) txt).1
        = List.count sid
            ((dedupStep cs sid (hashGoogleId gv) txt).1.map (fun kc => kc.1)) := by
      rw [List.count_eq_countP, List.countP_map]
      rfl
    rw [hcnt]
    exact List.nodup_iff_count_le_one.mp hK1 sid
  · refine le_trans (List.countP_mono_left ?_) (hA1 g)
    intro kc _ hp
    simp only [Function.comp_apply] at hp
    by_cases hbeq : (kc.1 == sid) = true
    · rw [if_pos hbeq] at hp
      simp only [beq_iff_eq] at hp
      rw [hvid] at hp
      exact absurd hp.symm hg
    · rw [if_neg hbeq] at hp
      exact hp

theorem handleMessage_preserves_inv (ae : Option String) (st : HubState) (sid : String)
    (msg : InMsg) (now : ℚ) (fid : String) (h : HubInv st) :
    HubInv (handleMessage ae st sid msg now fid).1 := by
  obtain ⟨hK, hA⟩ := h
  rcases hsd : mapGet st.clients sid with _ | sender
  · simp only [handleMessage, hsd]
    exact ⟨hK, hA⟩
  cases msg with
  | authGoogle v =>
      rcases v with _ | _ | p
      · simp only [handleMessage, hsd]
        exact ⟨hK, hA⟩
      · simp only [handleMessage, hsd]
        exact ⟨hK, hA⟩
      · simp only [handleMessage, hsd]
        exact dedup_update_preserves st.clients sid
          "You have been logged in from another device/tab"
          (googleAuthedClient sender p ae) p.sub rfl hK hA
  | authDev e =>
      by_cases hm : adminEmailMatch ae (some e) = true
      · simp only [handleMessage, hsd, hm, if_true]
        exact dedup_update_preserves st.clients sid "Dev session replaced"
          _ e rfl hK hA
      · simp only [handleMessage, hsd, hm, if_false]
        exact ⟨hK, hA⟩
  | chat text image =>
      simp only [handleMessage, hsd]
      exact ⟨hK, hA⟩
  | toggleUserControls v =>
      simp only [handleMessage, hsd]
      split
      · exact ⟨hK, hA⟩
      · exact ⟨hK, hA⟩
  | toggleProxy v =>
      simp only [handleMessage, hsd]
      split
      · exact ⟨hK, hA⟩
      · exact ⟨hK, hA⟩
  | getUsers =>
      simp only [handleMessage, hsd]
      split
      · exact ⟨hK, hA⟩
      · exact ⟨hK, hA⟩
  | muteUser t =>
      simp only [handleMessage, hsd]
      split
      · split
        · next cs2 heq =>
            exact ⟨keysNodup_toggleMute heq hK, atMostOne_toggleMute heq hA⟩
        · exact ⟨hK, hA⟩
      · exact ⟨hK, hA⟩
  | kickUser t =>
      simp only [handleMessage, hsd]
      split
      · split
        · exact ⟨hK, hA⟩
        · exact ⟨hK, hA⟩
      · exact ⟨hK, hA⟩
  | sync u tm p =>
      simp only [handleMessage, hsd]
      split
      · exact ⟨hK, hA⟩
      · exact ⟨hK, hA⟩
  | forceSync u tm p =>
      simp only [handleMessage, hsd]
      split
      · exact ⟨hK, hA⟩
      · exact ⟨hK, hA⟩
  | timeUpdateMsg tm p =>
      simp only [handleMessage, hsd]
      split
      · exact ⟨hK, hA⟩
      · exact ⟨hK, hA⟩
  | ready v =>
      simp only [handleMessage, hsd]
      exact ⟨keysNodup_mapUpdate _ _ _ hK,
             atMostOne_mapUpdate_same_uid _ _ _ sender hK hsd rfl hA⟩
  | load url =>
      simp only [handleMessage, hsd]
      split
      · exact ⟨keysNodup_map_preserve _ _ (fun kc => rfl) hK,
               atMostOne_map_preserve _ _ (fun kc => rfl) hA⟩
      · exact ⟨hK, hA⟩
  | queueAdd video =>
      simp only [handleMessage, hsd]
      exact ⟨hK, hA⟩
  | queuePlayNext video =>
      simp only [handleMessage, hsd]
      split
      · exact ⟨hK, hA⟩
      · exact ⟨hK, hA⟩
  | queuePlayNow video =>
      simp only [handleMessage, hsd]
      split
      · exact ⟨hK, hA⟩
      · exact ⟨hK, hA⟩
  | queueRemove itemId =>
      simp only [handleMessage, hsd]
      split
      · split
        · exact ⟨hK, hA⟩
        · exact ⟨hK, hA⟩
      · exact ⟨hK, hA⟩
  | queueReorder f t =>
      simp only [handleMessage, hsd]
      split
      · split
        · exact ⟨hK, hA⟩
        · exact ⟨hK, hA⟩
      · exact ⟨hK, hA⟩
  | queueGet =>
      simp only [handleMessage, hsd]
      exact ⟨hK, hA⟩
  | videoEnded =>
      simp only [handleMessage, hsd]
      split
      · exact ⟨hK, hA⟩
      · split
        · exact ⟨hK, hA⟩
        · exact ⟨hK, hA⟩
  | ping startTime =>
      simp only [handleMessage, hsd]
      exact ⟨hK, hA⟩

theorem stepEvent_preserves_inv (ae : Option String) (st : HubState) (e : Event)
    (h : HubInv st) : HubInv (stepEvent ae st e) := by
  cases e with
  | connect sid now =>
      exact ⟨keysNodup_mapSet _ _ _ h.1,
             atMostOne_mapSet_of_not_hash _ _ _
               (fun g hg => hash_ne_temp g sid hg.symm) h.2⟩
  | message sid msg now fid =>
      exact handleMessage_preserves_inv ae st sid msg now fid h
  | voice sid => exact h
  | disconnect sid =>
      show HubInv (disconnectStep st sid).1
      unfold disconnectStep
      rcases hsd : mapGet st.clients sid with _ | leaver
      · exact h
      · exact ⟨keysNodup_of_sublist (List.filter_sublist _) h.1,
               atMostOne_of_sublist (List.filter_sublist _) h.2⟩

theorem reachable_inv (ae : Option String) (s0 : ServerState) (st : HubState)
    (h : Reachable ae s0 st) : HubInv st := by
  induction h with
  | init => exact ⟨by simp [KeysNodup], fun g => by simp⟩
  | next e hr ih => exact stepEvent_preserves_inv ae _ e ih

theorem dedup_finds {cs : List (String × Client)} {sid k : String} {c : Client}
    {gv : String} (hA : AtMostOnePerId cs) (hm : (k, c) ∈ cs) (hks : k ≠ sid)
    (hcu : c.userId = hashGoogleId gv) :
    findOtherHolder cs sid (hashGoogleId gv) = some (k, c) := by
  rcases hf : findOtherHolder cs sid (hashGoogleId gv) with _ | e
  · exact absurd hcu (findOtherHolder_none_spec hf (k, c) hm hks)
  · obtain ⟨hem, heu, _⟩ := findOtherHolder_some_spec hf
    exact congrArg some (holders_unique hA gv hem hm heu hcu)

theorem mapUpdate_mapDelete_keys {cs : List (String × Client)} {k sid : String}
    {v : Client} (hks : k ≠ sid) :
    ∀ x ∈ mapUpdate (mapDelete cs k) sid v, x.1 ≠ k := by
  intro x hx
  unfold mapUpdate at hx
  obtain ⟨y, hy, hfy⟩ := List.mem_map.mp hx
  have hyne : y.1 ≠ k := by simpa using List.of_mem_filter hy
  by_cases hbeq : (y.1 == sid) = true
  · rw [if_pos hbeq] at hfy
    rw [← hfy]
    exact fun hcontra => hks hcontra.symm
  · rw [if_neg hbeq] at hfy
    rw [← hfy]
    exact hyne

theorem mapGet_mapDelete_isSome {cs : List (String × Client)} {k sid : String}
    {sender : Client} (hks : k ≠ sid) (hget : mapGet cs sid = some sender) :
    (mapGet (mapDelete cs k) sid).isSome := by
  refine @mem_mapGet_isSome _ _ sender ?_
  unfold mapDelete
  exact List.mem_filter.mpr ⟨mapGet_some_mem hget, by simp [Ne.symm hks]⟩

/-- C1. Single-session invariant. First, every hub state reachable from a
fresh process satisfies the registry invariant: connection keys are
distinct and at most one live connection holds any given stable (hashed)
identifier. Second and third, when a connection authenticates (via Google
or the dev path) with an external identity whose stable identifier is
already held by another live connection, that connection is sent
`session-replaced`, force-disconnected, and removed from the registry,
while the authenticating connection's record is installed under the new
stable identifier. -/
theorem single_session_invariant :
    (∀ (ae : Option String) (s0 : ServerState) (st : HubState),
       Reachable ae s0 st →
         KeysNodup st.clients ∧ AtMostOnePerId st.clients) ∧
    (∀ (ae : Option String) (st : HubState) (sid : String) (p : GooglePayload)
       (now : ℚ) (fid : String) (sender : Client) (k : String) (c : Client),
       KeysNodup st.clients → AtMostOnePerId st.clients →
       mapGet st.clients sid = some sender →
       (k, c) ∈ st.clients → k ≠ sid → c.userId = hashGoogleId p.sub →
       (Effect.emitTo k (OutMsg.sessionReplaced
           "You have been logged in from another device/tab")
          ∈ (handleMessage ae st sid (InMsg.authGoogle (some (some p))) now fid).2 ∧
        Effect.disconnectSock k
          ∈ (handleMessage ae st sid (InMsg.authGoogle (some (some p))) now fid).2 ∧
        (∀ kc ∈ (handleMessage ae st sid (InMsg.authGoogle (some (some p))) now
             fid).1.clients, kc.1 ≠ k) ∧
        mapGet (handleMessage ae st sid (InMsg.authGoogle (some (some p))) now
             fid).1.clients sid = some (googleAuthedClient sender p ae))) ∧
    (∀ (ae : Option String) (st : HubState) (sid email : String) (now : ℚ)
       (fid : String) (sender : Client) (k : String) (c : Client),
       KeysNodup st.clients → AtMostOnePerId st.clients →
       adminEmailMatch ae (some email) = true →
       mapGet st.clients sid = some sender →
       (k, c) ∈ st.clients → k ≠ sid → c.userId = hashGoogleId email →
       (Effect.emitTo k (OutMsg.sessionReplaced "Dev session replaced")
          ∈ (handleMessage ae st sid (InMsg.authDev email) now fid).2 ∧
        Effect.disconnectSock k
          ∈ (handleMessage ae st sid (InMsg.authDev email) now fid).2 ∧
        (∀ kc ∈ (handleMessage ae st sid (InMsg.authDev email) now
             fid).1.clients, kc.1 ≠ k) ∧
        mapGet (handleMessage ae st sid (InMsg.authDev email) now
             fid).1.clients sid =
          some { sender with
                 userId := hashGoogleId email, googleId := some email,
                 isAuthenticated := true, nick := "Dev Admin", isAdmin := true,
                 picture := none })) := by
  refine ⟨fun ae s0 st h => reachable_inv ae s0 st h, ?_, ?_⟩
  · intro ae st sid p now fid sender k c hK hA hsd hm hks hcu
    have hfind := dedup_finds hA hm hks hcu
    have hded : dedupStep st.clients sid (hashGoogleId p.sub)
        "You have been logged in from another device/tab" =
        (mapDelete st.clients k,
         [Effect.emitTo k (OutMsg.sessionReplaced
            "You have been logged in from another device/tab"),
          Effect.disconnectSock k]) := by
      unfold dedupStep
      rw [hfind]
    refine ⟨?_, ?_, ?_, ?_⟩
    · simp [handleMessage, hsd, hded]
    · simp [handleMessage, hsd, hded]
    · intro kc hkc
      have hclients : (handleMessage ae st sid (InMsg.authGoogle (some (some p)))
          now fid).1.clients =
          mapUpdate (mapDelete st.clients k) sid (googleAuthedClient sender p ae) := by
        simp [handleMessage, hsd, hded]
      rw [hclients] at hkc
      exact mapUpdate_mapDelete_keys hks kc hkc
    · have hclients : (handleMessage ae st sid (InMsg.authGoogle (some (some p)))
          now fid).1.clients =
          mapUpdate (mapDelete st.clients k) sid (googleAuthedClient sender p ae) := by
        simp [handleMessage, hsd, hded]
      rw [hclients]
      exact mapGet_mapUpdate_of_isSome _ _ _ (mapGet_mapDelete_isSome hks hsd)
  · intro ae st sid email now fid sender k c hK hA hadm hsd hm hks hcu
    have hfind := dedup_finds hA hm hks hcu
    have hded : dedupStep st.clients sid (hashGoogleId email) "Dev session replaced" =
        (mapDelete st.clients k,
         [Effect.emitTo k (OutMsg.sessionReplaced "Dev session replaced"),
          Effect.disconnectSock k]) := by
      unfold dedupStep
      rw [hfind]
    refine ⟨?_, ?_, ?_, ?_⟩
    · simp [handleMessage, hsd, hadm, hded]
    · simp [handleMessage, hsd, hadm, hded]
    · intro kc hkc
      have hclients : (handleMessage ae st sid (InMsg.authDev email)
          now fid).1.clients =
          mapUpdate (mapDelete st.clients k) sid
            { sender with
              userId := hashGoogleId email, googleId := some email,
              isAuthenticated := true, nick := "Dev Admin", isAdmin := true,
              picture := none } := by
        simp [handleMessage, hsd, hadm, hded]
      rw [hclients] at hkc
      exact mapUpdate_mapDelete_keys hks kc hkc
    · have hclients : (handleMessage ae st sid (InMsg.authDev email)
          now fid).1.clients =
          mapUpdate (mapDelete st.clients k) sid
            { sender with
              userId := hashGoogleId email, googleId := some email,
              isAuthenticated := true, nick := "Dev Admin", isAdmin := true,
              picture := none } := by
        simp [handleMessage, hsd, hadm, hded]
      rw [hclients]
      exact mapGet_mapUpdate_of_isSome _ _ _ (mapGet_mapDelete_isSome hks hsd)

theorem atMostOne_pair (k1 k2 : String) (c1 c2 : Client)
    (h1 : ∀ g, c1.userId ≠ hashGoogleId g) :
    AtMostOnePerId [(k1, c1), (k2, c2)] := by
  intro g
  rw [List.countP_cons]
  have hp1 : (((k1, c1) : String × Client).2.userId == hashGoogleId g) = false := by
    simpa using h1 g
  rw [hp1]
  have hle : List.countP (fun kc => kc.2.userId == hashGoogleId g) [(k2, c2)] ≤ 1 :=
    le_trans (List.countP_le_length _) (by simp)
  simpa using hle

/-- Closed instance of C1: the empty boot registry satisfies the invariant,
and with Alice live on `s2`, the guest on `s1` authenticating as Alice (via
Google, and the dev path analogue) supersedes and removes `s2` while
installing the new record on `s1`. -/
theorem single_session_invariant_witness :
    (KeysNodup bootState.clients ∧ AtMostOnePerId bootState.clients) ∧
    (Effect.emitTo "s2" (OutMsg.sessionReplaced
        "You have been logged in from another device/tab")
       ∈ (handleMessage none dualState "s1"
            (InMsg.authGoogle (some (some alicePayload))) 3 "f").2 ∧
     Effect.disconnectSock "s2"
       ∈ (handleMessage none dualState "s1"
            (InMsg.authGoogle (some (some alicePayload))) 3 "f").2 ∧
     mapGet (handleMessage none dualState "s1"
          (InMsg.authGoogle (some (some alicePayload))) 3 "f").1.clients "s1" =
       some (googleAuthedClient guestClient alicePayload none)) ∧
    Effect.disconnectSock "s2"
      ∈ (handleMessage (some "a@b") devDualState "s1" (InMsg.authDev "a@b")
           3 "f").2 := by
  refine ⟨single_session_invariant.1 none (defaultState 0) _ Reachable.init, ?_, ?_⟩
  · have h := single_session_invariant.2.1 none dualState "s1" alicePayload 3 "f"
      guestClient "s2" aliceClient (by unfold KeysNodup; decide)
      (atMostOne_pair "s1" "s2" guestClient aliceClient
        (fun g hg => hash_ne_temp g "s1" hg.symm))
      (by decide) (by decide) (by decide) rfl
    exact ⟨h.1, h.2.1, h.2.2.2⟩
  · have h := single_session_invariant.2.2 (some "a@b") devDualState "s1" "a@b" 3 "f"
      guestClient "s2" devClient (by unfold KeysNodup; decide)
      (atMostOne_pair "s1" "s2" guestClient devClient
        (fun g hg => hash_ne_temp g "s1" hg.symm))
      (by decide) (by decide) (by decide) (by decide) rfl
    exact h.2.1

end SyncPlayer
